import Mathlib

/-!
Verification of the flights-scraper-effect core against its specification.

The TypeScript source is shallowly embedded: pure functions become Lean
functions, the `Ref`-based mutable state of the rate limiter and the cache
becomes explicit state passing, `Effect` failures become `Except`, and the
Effect `Schedule` combinators used by the retry logic are modelled as small
step machines.  JavaScript numbers that hold integral millisecond
timestamps are modelled as `Int`, prices as `WithTop Rat` (the `Infinity`
sentinel of `parsePriceToNumber` is the top element).
-/

namespace FlightsScraper

/-- Error taxonomy of `ScraperError.reason` (src/domain/types and callers). -/
inductive ErrorReason
  | invalidInput
  | navigationFailed
  | timeout
  | parsingError
  | rateLimitExceeded
  | unknownReason
deriving DecidableEq, Repr

/-- `ScraperError`: a machine-readable reason plus a display message. -/
structure ScraperErrorM where
  reason : ErrorReason
  message : String
deriving DecidableEq, Repr

/-! ## Retry (src/utils/retry.ts) -/

namespace Retry

open FlightsScraper

/-- `RetryConfig` from retry.ts; all durations in milliseconds. -/
structure RetryConfig where
  maxAttempts : Nat
  initialDelay : Nat
  maxDelay : Nat
  backoffFactor : Nat
deriving DecidableEq, Repr

/-- `defaultRetryConfig` from retry.ts. -/
def defaultRetryConfig : RetryConfig :=
  { maxAttempts := 3, initialDelay := 1000, maxDelay := 30000, backoffFactor := 2 }

/-- `isRetryableError` from retry.ts: only NavigationFailed and Timeout
are retryable. -/
def isRetryableError (e : ScraperErrorM) : Bool :=
  e.reason == .navigationFailed || e.reason == .timeout

/-- A shallow model of an Effect `Schedule` that ignores its inputs (every
combinator used by `createRetrySchedule` is input-independent).  `step` takes
the current clock value (ms) and the schedule state and returns the new
state, the output, whether the schedule continues, and the delay to sleep
before the next recurrence. -/
structure MSchedule (σ : Type) (Out : Type) where
  init : σ
  step : Nat → σ → σ × Out × Bool × Nat

/-- `Schedule.exponential(base, factor)`: the n-th delay (n from 0) is
`base * factor ^ n`; the output is that delay; never terminates. -/
def exponentialSched (base factor : Nat) : MSchedule Nat Nat :=
  ⟨0, fun _now k => (k + 1, base * factor ^ k, true, base * factor ^ k)⟩

/-- `Schedule.spaced(d)`: constant delay `d`, output is the recurrence
count; never terminates. -/
def spacedSched (d : Nat) : MSchedule Nat Nat :=
  ⟨0, fun _now k => (k + 1, k, true, d)⟩

/-- `Schedule.either` (union): continues if either side continues, sleeps
the minimum of the two delays, outputs both outputs. -/
def eitherSched {σ₁ σ₂ O₁ O₂ : Type} (s : MSchedule σ₁ O₁) (t : MSchedule σ₂ O₂) :
    MSchedule (σ₁ × σ₂) (O₁ × O₂) :=
  ⟨(s.init, t.init), fun now st =>
    let r₁ := s.step now st.1
    let r₂ := t.step now st.2
    ((r₁.1, r₂.1), (r₁.2.1, r₂.2.1), r₁.2.2.1 || r₂.2.2.1, min r₁.2.2.2 r₂.2.2.2)⟩

/-- `Schedule.compose` (`>>>`): pipes outputs of the first schedule into the
second (inputs are unused in our schedules), continues iff both continue,
and the combined interval is the later of the two (max of the delays). -/
def composeSched {σ₁ σ₂ O₁ O₂ : Type} (s : MSchedule σ₁ O₁) (t : MSchedule σ₂ O₂) :
    MSchedule (σ₁ × σ₂) O₂ :=
  ⟨(s.init, t.init), fun now st =>
    let r₁ := s.step now st.1
    let r₂ := t.step now st.2
    ((r₁.1, r₂.1), r₂.2.1, r₁.2.2.1 && r₂.2.2.1, max r₁.2.2.2 r₂.2.2.2)⟩

/-- `Schedule.elapsed`: outputs the time elapsed since the schedule first
ran (the state remembers the start time); no delay of its own. -/
def elapsedSched : MSchedule (Option Nat) Nat :=
  ⟨none, fun now st =>
    let start := st.getD now
    (some start, now - start, true, 0)⟩

/-- `Schedule.whileOutput(p)`: continue only while `p` holds of the output. -/
def whileOutputSched {σ O : Type} (s : MSchedule σ O) (p : O → Bool) : MSchedule σ O :=
  ⟨s.init, fun now st =>
    let r := s.step now st
    (r.1, r.2.1, r.2.2.1 && p r.2.1, r.2.2.2)⟩

/-- `Schedule.recurs(n)`: outputs the recurrence count and continues while
it is below `n`; no delay. -/
def recursSched (n : Nat) : MSchedule Nat Nat :=
  ⟨0, fun _now k => (k + 1, k, decide (k < n), 0)⟩

/-- `Schedule.intersect`: continues iff both continue, sleeps the maximum
of the delays, outputs both outputs. -/
def intersectSched {σ₁ σ₂ O₁ O₂ : Type} (s : MSchedule σ₁ O₁) (t : MSchedule σ₂ O₂) :
    MSchedule (σ₁ × σ₂) (O₁ × O₂) :=
  ⟨(s.init, t.init), fun now st =>
    let r₁ := s.step now st.1
    let r₂ := t.step now st.2
    ((r₁.1, r₂.1), (r₁.2.1, r₂.2.1), r₁.2.2.1 && r₂.2.2.1, max r₁.2.2.2 r₂.2.2.2)⟩

/-- `createRetrySchedule` from retry.ts, combinator for combinator:
exponential backoff, unioned with `spaced(maxDelay)` (capping each delay at
`maxDelay`), composed with `elapsed`, gated by
`whileOutput(_ ≤ maxDelay)` on the elapsed time, intersected with
`recurs(maxAttempts - 1)`. -/
def createRetrySchedule (c : RetryConfig) :
    MSchedule (((Nat × Nat) × Option Nat) × Nat) (Nat × Nat) :=
  intersectSched
    (whileOutputSched
      (composeSched
        (eitherSched (exponentialSched c.initialDelay c.backoffFactor) (spacedSched c.maxDelay))
        elapsedSched)
      (fun o => decide (o ≤ c.maxDelay)))
    (recursSched (c.maxAttempts - 1))

/-- `Effect.retry({schedule, while})` as used by `withRetry`: run the
operation; on a failure that satisfies `while`, step the schedule, and if it
continues sleep its delay and re-run, otherwise surface the failure.  The
operation is modelled as a function from the 0-based attempt index to its
outcome, and attempts are instantaneous (the clock advances only by the
slept delays).  The fuel argument is an upper bound on recursion depth;
`recurs(maxAttempts-1)` stops the schedule long before fuel can run out.
Returns the final outcome and the number of attempts that were made. -/
def retryLoop {σ O A : Type} (sched : MSchedule σ O) (retryWhile : ScraperErrorM → Bool)
    (op : Nat → Except ScraperErrorM A) :
    Nat → Nat → Nat → σ → Except ScraperErrorM A × Nat
  | 0, _now, k, _st => (op k, k + 1)
  | fuel + 1, now, k, st =>
    match op k with
    | .ok a => (.ok a, k + 1)
    | .error e =>
      if retryWhile e then
        let r := sched.step now st
        if r.2.2.1 then retryLoop sched retryWhile op fuel (now + r.2.2.2) (k + 1) r.1
        else (.error e, k + 1)
      else (.error e, k + 1)

/-- `withRetry` from retry.ts, together with the attempt count of the run.
(`withRetryAndLog` differs only by logging to the observability sink.) -/
def withRetryRun {A : Type} (c : RetryConfig) (op : Nat → Except ScraperErrorM A) :
    Except ScraperErrorM A × Nat :=
  retryLoop (createRetrySchedule c) isRetryableError op (c.maxAttempts + 1) 0 0
    (createRetrySchedule c).init

/-- The value `withRetry` returns to its caller. -/
def withRetry {A : Type} (c : RetryConfig) (op : Nat → Except ScraperErrorM A) :
    Except ScraperErrorM A :=
  (withRetryRun c op).1

/-- How many times `withRetry` ran the wrapped operation. -/
def attemptsUsed {A : Type} (c : RetryConfig) (op : Nat → Except ScraperErrorM A) : Nat :=
  (withRetryRun c op).2

/-! ### Derived closed form of the composed schedule

`retryDelay`, `elapsedBefore` and `schedOK` are the closed forms we prove
the combinator pipeline equal to; the claims are then settled against
`refRun`, which `withRetryRun` is shown to coincide with. -/

/-- Closed form of the delay the composed schedule sleeps before the
(k+1)-st attempt: exponential growth capped at `maxDelay`. -/
def retryDelay (c : RetryConfig) (k : Nat) : Nat :=
  min (c.initialDelay * c.backoffFactor ^ k) c.maxDelay

/-- Total time slept before the schedule's k-th decision (attempts are
instantaneous in the model). -/
def elapsedBefore (c : RetryConfig) : Nat → Nat
  | 0 => 0
  | k + 1 => elapsedBefore c k + retryDelay c k

/-- Closed form of the composed schedule's continue-decision at its k-th
step: the elapsed time must still be at most `maxDelay` (the
`whileOutput ∘ elapsed` gate) and fewer than `maxAttempts - 1` retries must
have happened (the `recurs` gate). -/
def schedOK (c : RetryConfig) (k : Nat) : Bool :=
  decide (elapsedBefore c k ≤ c.maxDelay) && decide (k < c.maxAttempts - 1)

/-- The state of `createRetrySchedule c` after `k` steps of a run that
started at clock 0. -/
def schedState (k : Nat) : ((Nat × Nat) × Option Nat) × Nat :=
  (((k, k), if k = 0 then none else some 0), k)

theorem createRetrySchedule_step (c : RetryConfig) (k : Nat) :
    (createRetrySchedule c).step (elapsedBefore c k) (schedState k) =
      (schedState (k + 1), (elapsedBefore c k, k), schedOK c k, retryDelay c k) := by
  cases k with
  | zero =>
    simp [createRetrySchedule, intersectSched, whileOutputSched, composeSched, eitherSched,
      exponentialSched, spacedSched, elapsedSched, recursSched, schedState, schedOK,
      retryDelay, elapsedBefore]
  | succ n =>
    simp [createRetrySchedule, intersectSched, whileOutputSched, composeSched, eitherSched,
      exponentialSched, spacedSched, elapsedSched, recursSched, schedState, schedOK,
      retryDelay]

/-- Reference recursion for `withRetry`: retry while the error is
retryable and the schedule's closed-form decision continues. -/
def refRun {A : Type} (c : RetryConfig) (op : Nat → Except ScraperErrorM A) (k : Nat) :
    Except ScraperErrorM A × Nat :=
  match op k with
  | .ok a => (.ok a, k + 1)
  | .error e =>
    if h : isRetryableError e && schedOK c k then refRun c op (k + 1)
    else (.error e, k + 1)
termination_by c.maxAttempts - 1 - k
decreasing_by
  simp only [schedOK, Bool.and_eq_true, decide_eq_true_eq] at h
  omega

theorem retryLoop_eq_refRun {A : Type} (c : RetryConfig) (op : Nat → Except ScraperErrorM A) :
    ∀ fuel k, c.maxAttempts ≤ k + fuel →
      retryLoop (createRetrySchedule c) isRetryableError op fuel (elapsedBefore c k) k
          (schedState k)
        = refRun c op k := by
  intro fuel
  induction fuel with
  | zero =>
    intro k h
    rw [refRun]
    have hsched : schedOK c k = false := by
      simp only [schedOK, Bool.and_eq_false_iff, decide_eq_false_iff_not]
      right; omega
    cases hop : op k with
    | ok a => simp [retryLoop, hop]
    | error e => simp [retryLoop, hop, hsched]
  | succ n ih =>
    intro k h
    rw [refRun]
    cases hop : op k with
    | ok a => simp [retryLoop, hop]
    | error e =>
      simp only [retryLoop, hop]
      cases hre : isRetryableError e with
      | false => simp [hre]
      | true =>
        rw [createRetrySchedule_step]
        cases hsc : schedOK c k with
        | false => simp [hre, hsc]
        | true =>
          have : elapsedBefore c k + retryDelay c k = elapsedBefore c (k + 1) := rfl
          simp only [hre, hsc, if_true, Bool.and_self, this]
          exact ih (k + 1) (by omega)

theorem withRetryRun_eq_refRun {A : Type} (c : RetryConfig)
    (op : Nat → Except ScraperErrorM A) : withRetryRun c op = refRun c op 0 := by
  have h := retryLoop_eq_refRun c op (c.maxAttempts + 1) 0 (by omega)
  have hinit : (createRetrySchedule c).init = schedState 0 := rfl
  simpa [withRetryRun, hinit, elapsedBefore] using h

theorem refRun_attempts_ge {A : Type} (c : RetryConfig) (op : Nat → Except ScraperErrorM A) :
    ∀ n k, c.maxAttempts - 1 - k ≤ n → k + 1 ≤ (refRun c op k).2 := by
  intro n
  induction n with
  | zero =>
    intro k h
    rw [refRun]
    have hsched : schedOK c k = false := by
      simp only [schedOK, Bool.and_eq_false_iff, decide_eq_false_iff_not]
      right; omega
    cases hop : op k with
    | ok a => simp
    | error e => simp [hsched]
  | succ n ih =>
    intro k h
    rw [refRun]
    cases hop : op k with
    | ok a => simp
    | error e =>
      by_cases hc : (isRetryableError e && schedOK c k) = true
      · have hk : k < c.maxAttempts - 1 := by
          simp only [schedOK, Bool.and_eq_true, decide_eq_true_eq] at hc
          exact hc.2.2
        have := ih (k + 1) (by omega)
        simp only [hc, dif_pos]
        omega
      · simp [hc]

theorem refRun_attempts_le {A : Type} (c : RetryConfig) (op : Nat → Except ScraperErrorM A) :
    ∀ n k, c.maxAttempts - 1 - k ≤ n →
      (refRun c op k).2 ≤ k + 1 + (c.maxAttempts - 1 - k) := by
  intro n
  induction n with
  | zero =>
    intro k h
    rw [refRun]
    have hsched : schedOK c k = false := by
      simp only [schedOK, Bool.and_eq_false_iff, decide_eq_false_iff_not]
      right; omega
    cases hop : op k with
    | ok a => simp
    | error e => simp [hsched]
  | succ n ih =>
    intro k h
    rw [refRun]
    cases hop : op k with
    | ok a => simp
    | error e =>
      by_cases hc : (isRetryableError e && schedOK c k) = true
      · have hk : k < c.maxAttempts - 1 := by
          simp only [schedOK, Bool.and_eq_true, decide_eq_true_eq] at hc
          exact hc.2.2
        have := ih (k + 1) (by omega)
        simp only [hc, dif_pos]
        omega
      · simp [hc]

theorem refRun_nonretryable {A : Type} (c : RetryConfig) (op : Nat → Except ScraperErrorM A)
    (k : Nat) (e : ScraperErrorM) (hop : op k = .error e)
    (hre : isRetryableError e = false) : refRun c op k = (.error e, k + 1) := by
  rw [refRun]
  simp [hop, hre]

theorem refRun_fst_of_always_error {A : Type} (c : RetryConfig)
    (op : Nat → Except ScraperErrorM A) (e : ScraperErrorM) (hop : ∀ j, op j = .error e) :
    ∀ n k, c.maxAttempts - 1 - k ≤ n → (refRun c op k).1 = .error e := by
  intro n
  induction n with
  | zero =>
    intro k h
    rw [refRun]
    have hsched : schedOK c k = false := by
      simp only [schedOK, Bool.and_eq_false_iff, decide_eq_false_iff_not]
      right; omega
    simp [hop k, hsched]
  | succ n ih =>
    intro k h
    rw [refRun]
    by_cases hc : (isRetryableError e && schedOK c k) = true
    · have hk : k < c.maxAttempts - 1 := by
        simp only [schedOK, Bool.and_eq_true, decide_eq_true_eq] at hc
        exact hc.2.2
      simp only [hop k, hc, dif_pos]
      exact ih (k + 1) (by omega)
    · simp [hop k, hc]

theorem refRun_exact {A : Type} (c : RetryConfig) (op : Nat → Except ScraperErrorM A)
    (htime : ∀ j, j < c.maxAttempts - 1 → elapsedBefore c j ≤ c.maxDelay)
    (hop : ∀ j, j < c.maxAttempts - 1 → ∃ e, op j = .error e ∧ isRetryableError e = true) :
    ∀ n k, c.maxAttempts - 1 - k ≤ n → k ≤ c.maxAttempts - 1 →
      (refRun c op k).2 = c.maxAttempts - 1 + 1 := by
  intro n
  induction n with
  | zero =>
    intro k h hk
    have hk' : k = c.maxAttempts - 1 := by omega
    rw [refRun]
    cases hop' : op k with
    | ok a => simp [hk']
    | error e =>
      have hsched : schedOK c k = false := by
        simp only [schedOK, Bool.and_eq_false_iff, decide_eq_false_iff_not]
        right; omega
      rw [hk'] at hsched; simp [hsched, hk']
  | succ n ih =>
    intro k h hk
    by_cases hlt : k < c.maxAttempts - 1
    · obtain ⟨e, hope, hre⟩ := hop k hlt
      have hsched : schedOK c k = true := by
        simp only [schedOK, Bool.and_eq_true, decide_eq_true_eq]
        exact ⟨htime k hlt, hlt⟩
      rw [refRun]
      simp only [hope, hre, hsched, Bool.and_self, dif_pos]
      exact ih (k + 1) (by omega) (by omega)
    · have hk' : k = c.maxAttempts - 1 := by omega
      rw [refRun]
      cases hop' : op k with
      | ok a => simp [hk']
      | error e =>
        have hsched : schedOK c k = false := by
          simp only [schedOK, Bool.and_eq_false_iff, decide_eq_false_iff_not]
          right; omega
        rw [hk'] at hsched; simp [hsched, hk']

theorem refRun_last_ok {A : Type} (c : RetryConfig) (op : Nat → Except ScraperErrorM A) (a : A)
    (htime : ∀ j, j < c.maxAttempts - 1 → elapsedBefore c j ≤ c.maxDelay)
    (hop : ∀ j, j < c.maxAttempts - 1 → ∃ e, op j = .error e ∧ isRetryableError e = true)
    (hlast : op (c.maxAttempts - 1) = .ok a) :
    ∀ n k, c.maxAttempts - 1 - k ≤ n → k ≤ c.maxAttempts - 1 →
      refRun c op k = (.ok a, c.maxAttempts - 1 + 1) := by
  intro n
  induction n with
  | zero =>
    intro k h hk
    have hk' : k = c.maxAttempts - 1 := by omega
    subst hk'
    rw [refRun]
    simp [hlast]
  | succ n ih =>
    intro k h hk
    by_cases hlt : k < c.maxAttempts - 1
    · obtain ⟨e, hope, hre⟩ := hop k hlt
      have hsched : schedOK c k = true := by
        simp only [schedOK, Bool.and_eq_true, decide_eq_true_eq]
        exact ⟨htime k hlt, hlt⟩
      rw [refRun]
      simp only [hope, hre, hsched, Bool.and_self, dif_pos]
      exact ih (k + 1) (by omega) (by omega)
    · have hk' : k = c.maxAttempts - 1 := by omega
      subst hk'
      rw [refRun]
      simp [hlast]

/-- A configuration on which the elapsed-time gate of the schedule fires
before the `maxAttempts` gate: every backoff delay is 30000 ms, so after
the second retry the elapsed time (60000 ms) exceeds `maxDelay`. -/
def slowRetryConfig : RetryConfig :=
  { maxAttempts := 4, initialDelay := 30000, maxDelay := 30000, backoffFactor := 2 }

/-- C2: an operation wrapped by `withRetry`/`withRetryAndLog` is re-attempted
only when its failure reason is NavigationFailed or Timeout.  A failure whose
reason is ParsingError, InvalidInput or RateLimitExceeded is propagated to
the caller after a single attempt with no retries; NavigationFailed and
Timeout failures are re-attempted (at least one retry happens whenever
`maxAttempts ≥ 2`) and surfaced after at most `maxAttempts` attempts. -/
theorem retry_classification (c : RetryConfig) :
    (∀ e : ScraperErrorM, isRetryableError e = true ↔
        (e.reason = .navigationFailed ∨ e.reason = .timeout)) ∧
    (∀ (A : Type) (op : Nat → Except ScraperErrorM A) (e : ScraperErrorM),
        op 0 = .error e →
        (e.reason = .parsingError ∨ e.reason = .invalidInput ∨ e.reason = .rateLimitExceeded) →
        withRetry c op = .error e ∧ attemptsUsed c op = 1) ∧
    (∀ e : ScraperErrorM, (e.reason = .navigationFailed ∨ e.reason = .timeout) →
        withRetry c (fun _ => (.error e : Except ScraperErrorM Unit)) = .error e ∧
        attemptsUsed c (fun _ => (.error e : Except ScraperErrorM Unit)) ≤ max 1 c.maxAttempts ∧
        (2 ≤ c.maxAttempts →
          2 ≤ attemptsUsed c (fun _ => (.error e : Except ScraperErrorM Unit)))) := by
  refine ⟨?_, ?_, ?_⟩
  · intro e
    cases e with
    | mk r m => cases r <;> simp [isRetryableError]
  · intro A op e hop hr
    have hre : isRetryableError e = false := by
      rcases hr with h | h | h <;> simp [isRetryableError, h]
    have h := refRun_nonretryable c op 0 e hop hre
    constructor
    · rw [withRetry, withRetryRun_eq_refRun, h]
    · rw [attemptsUsed, withRetryRun_eq_refRun, h]
  · intro e hr
    have hre : isRetryableError e = true := by
      rcases hr with h | h <;> simp [isRetryableError, h]
    refine ⟨?_, ?_, ?_⟩
    · rw [withRetry, withRetryRun_eq_refRun]
      exact refRun_fst_of_always_error c _ e (fun _ => rfl) c.maxAttempts 0 (by omega)
    · rw [attemptsUsed, withRetryRun_eq_refRun]
      have := refRun_attempts_le c (fun _ => (.error e : Except ScraperErrorM Unit))
        c.maxAttempts 0 (by omega)
      omega
    · intro h2
      rw [attemptsUsed, withRetryRun_eq_refRun, refRun]
      have h0 : schedOK c 0 = true := by
        simp only [schedOK, elapsedBefore, decide_eq_true_eq, Bool.and_eq_true]
        exact ⟨by omega, by omega⟩
      simp only [hre, h0, Bool.and_self, dif_pos]
      exact refRun_attempts_ge c _ c.maxAttempts 1 (by omega)

/-- Witness for C2: with the default configuration, a ParsingError failure
is surfaced after exactly one attempt, and a Timeout failure is attempted
at least twice. -/
theorem retry_classification_witness :
    withRetry defaultRetryConfig (fun _ => (.error ⟨.parsingError, "parse"⟩ :
        Except ScraperErrorM Unit)) = .error ⟨.parsingError, "parse"⟩ ∧
    attemptsUsed defaultRetryConfig (fun _ => (.error ⟨.parsingError, "parse"⟩ :
        Except ScraperErrorM Unit)) = 1 ∧
    2 ≤ attemptsUsed defaultRetryConfig (fun _ => (.error ⟨.timeout, "slow"⟩ :
        Except ScraperErrorM Unit)) := by
  refine ⟨?_, ?_, ?_⟩
  · exact ((retry_classification defaultRetryConfig).2.1 Unit _ ⟨.parsingError, "parse"⟩
      rfl (Or.inl rfl)).1
  · exact ((retry_classification defaultRetryConfig).2.1 Unit _ ⟨.parsingError, "parse"⟩
      rfl (Or.inl rfl)).2
  · exact ((retry_classification defaultRetryConfig).2.2 ⟨.timeout, "slow"⟩
      (Or.inr rfl)).2.2 (by decide)

/-- C6 counterexample: with `maxAttempts = 4`, `initialDelay = maxDelay =
30000`, an always-NavigationFailed operation is attempted only 3 times, not
`maxAttempts = 4` — the `whileOutput(elapsed ≤ maxDelay)` gate in
`createRetrySchedule` stops retrying once the cumulative backoff delay
exceeds `maxDelay`, so the attempt cap is not determined by `maxAttempts`
alone. -/
theorem retry_attempt_cap_counterexample :
    attemptsUsed slowRetryConfig (fun _ => (.error ⟨.navigationFailed, "net"⟩ :
        Except ScraperErrorM Unit)) = 3 ∧
    slowRetryConfig.maxAttempts = 4 := by
  exact ⟨rfl, rfl⟩

/-- C6 (amended): the total number of attempts made by `withRetry` is capped
by `maxAttempts`, but additionally by the elapsed-time gate: retries stop
once the cumulative backoff delay exceeds `maxDelay`.  Whenever the
cumulative delay of the first `maxAttempts - 1` retries stays within
`maxDelay` (as it does for the default configuration), an operation that
always fails retryably is attempted exactly `maxAttempts` times, and an
operation that fails retryably on its first `maxAttempts - 1` invocations
and succeeds on the last returns success. -/
theorem retry_attempt_cap (c : RetryConfig) :
    (∀ (A : Type) (op : Nat → Except ScraperErrorM A),
        attemptsUsed c op ≤ max 1 c.maxAttempts) ∧
    ((∀ j, j < c.maxAttempts - 1 → elapsedBefore c j ≤ c.maxDelay) → 1 ≤ c.maxAttempts →
      (∀ e : ScraperErrorM, isRetryableError e = true →
          attemptsUsed c (fun _ => (.error e : Except ScraperErrorM Unit)) = c.maxAttempts) ∧
      (∀ (A : Type) (op : Nat → Except ScraperErrorM A) (a : A),
          (∀ j, j < c.maxAttempts - 1 → ∃ e, op j = .error e ∧ isRetryableError e = true) →
          op (c.maxAttempts - 1) = .ok a →
          withRetry c op = .ok a ∧ attemptsUsed c op = c.maxAttempts)) := by
  refine ⟨?_, ?_⟩
  · intro A op
    rw [attemptsUsed, withRetryRun_eq_refRun]
    have := refRun_attempts_le c op c.maxAttempts 0 (by omega)
    omega
  · intro htime h1
    refine ⟨?_, ?_⟩
    · intro e hre
      rw [attemptsUsed, withRetryRun_eq_refRun]
      have := refRun_exact c (fun _ => (.error e : Except ScraperErrorM Unit)) htime
        (fun j _ => ⟨e, rfl, hre⟩) c.maxAttempts 0 (by omega) (by omega)
      omega
    · intro A op a hop hlast
      have h := refRun_last_ok c op a htime hop hlast c.maxAttempts 0 (by omega) (by omega)
      constructor
      · rw [withRetry, withRetryRun_eq_refRun, h]
      · rw [attemptsUsed, withRetryRun_eq_refRun, h]
        omega

/-- Witness for C6 (amended): the default configuration keeps its cumulative
backoff (0 then 1000 ms) within `maxDelay = 30000`, so an
always-NavigationFailed operation is attempted exactly 3 times, and an
operation failing retryably twice then succeeding returns success. -/
theorem retry_attempt_cap_witness :
    attemptsUsed defaultRetryConfig (fun _ => (.error ⟨.navigationFailed, "net"⟩ :
        Except ScraperErrorM Unit)) = 3 ∧
    withRetry defaultRetryConfig
        (fun k => if k < 2 then (.error ⟨.timeout, "slow"⟩ : Except ScraperErrorM Nat)
          else .ok 7) = .ok 7 := by
  have htime : ∀ j, j < defaultRetryConfig.maxAttempts - 1 →
      elapsedBefore defaultRetryConfig j ≤ defaultRetryConfig.maxDelay := by decide
  constructor
  · exact ((retry_attempt_cap defaultRetryConfig).2 htime (by decide)).1
      ⟨.navigationFailed, "net"⟩ rfl
  · exact (((retry_attempt_cap defaultRetryConfig).2 htime (by decide)).2 Nat _ 7
      (fun j hj => ⟨⟨.timeout, "slow"⟩, by
        have : j < 2 := hj
        simp [this], rfl⟩) rfl).1

/-- C7 counterexample: `createRetrySchedule` applies no jitter at all — the
pipeline in retry.ts contains no `Schedule.jittered` and draws on no source
of randomness, so the delay before the first retry under the default
configuration is always exactly the nominal `initialDelay = 1000` ms
(whatever the clock value), never a randomized value in the ±20 % band
[800, 1200] that the claimed jitter would produce. -/
theorem retry_jitter_counterexample :
    ((createRetrySchedule defaultRetryConfig).step 0
        (createRetrySchedule defaultRetryConfig).init).2.2.2 = 1000 ∧
    ((createRetrySchedule defaultRetryConfig).step 98765
        (createRetrySchedule defaultRetryConfig).init).2.2.2 = 1000 := by
  exact ⟨rfl, rfl⟩

/-- C7 (amended): the delay decided by `createRetrySchedule` at its k-th
step is exactly `min (initialDelay * backoffFactor ^ k) maxDelay` —
exponential growth from `initialDelay` by `backoffFactor`, capped at
`maxDelay` per attempt, with no jitter: the delay is a deterministic
function of the configuration and the attempt index, independent of the
clock value `now`. -/
theorem retry_backoff_formula (c : RetryConfig) (k now : Nat) :
    ((createRetrySchedule c).step now (schedState k)).2.2.2
      = min (c.initialDelay * c.backoffFactor ^ k) c.maxDelay := by
  cases k <;>
    simp [createRetrySchedule, intersectSched, whileOutputSched, composeSched, eitherSched,
      exponentialSched, spacedSched, elapsedSched, recursSched, schedState]

end Retry

/-! ## Rate limiter (src/utils/rate-limiter.ts)

`acquire` performs its admission check and timestamp recording inside a
single `Ref.modify` (lines 70–83), so under concurrency every call is one
atomic transition of the timestamp list; `Ref.getAndSet` on the
last-request ref (line 94) is likewise atomic.  An interleaving of N
concurrent `acquire()` calls is therefore a sequence of `acquire` steps in
the model below; concurrent calls observe the same `Date.now()` clock. -/

namespace RateLimiter

/-- `RateLimiterConfig` with the defaults applied; durations in ms. -/
structure RateLimiterConfig where
  maxRequests : Nat
  windowMs : Int
  minDelay : Int
deriving DecidableEq, Repr

/-- `defaultRateLimiterConfig` from rate-limiter.ts. -/
def defaultRateLimiterConfig : RateLimiterConfig :=
  { maxRequests := 10, windowMs := 60000, minDelay := 2000 }

/-- The limiter's mutable state: `requestsRef` (timestamps, in arrival
order) and `lastRequestRef`. -/
structure LimiterState where
  requests : List Int
  lastRequest : Int
deriving DecidableEq, Repr

/-- The state after `reset()` , which is also the initial state. -/
def resetState : LimiterState := ⟨[], 0⟩

/-- Result returned out of the `Ref.modify` admission step. -/
structure AcquireCheck where
  allowed : Bool
  waitTime : Int
deriving DecidableEq, Repr

/-- The function passed to `Ref.modify(requestsRef, ...)` in `acquire`:
drop timestamps outside the trailing window, reject (leaving the state
unchanged) if the window is full, otherwise record `now` atomically with
the check.  The source reads `recent[0].timestamp` only in the rejection
branch, where `recent` is non-empty whenever `maxRequests ≥ 1`; `headD 0`
stands in for that read. -/
def acquireModify (maxRequests : Nat) (windowMs now : Int) (requests : List Int) :
    AcquireCheck × List Int :=
  let windowStart := now - windowMs
  let recent := requests.filter (fun r => decide (windowStart < r))
  if maxRequests ≤ recent.length then
    ({ allowed := false, waitTime := recent.headD 0 + windowMs - now }, requests)
  else
    ({ allowed := true, waitTime := 0 }, recent ++ [now])

/-- Outcome of one `acquire()` call: success (with the minimum-delay sleep
it performed, in ms) or a RateLimitExceeded failure carrying the wait
time used in the error message. -/
inductive AcquireResult
  | success (sleptMs : Int)
  | rateLimitExceeded (waitTime : Int)
deriving DecidableEq, Repr

/-- Whether the call returned normally. -/
def AcquireResult.isSuccess : AcquireResult → Bool
  | .success _ => true
  | _ => false

/-- Whether the call failed with RateLimitExceeded. -/
def AcquireResult.isRateLimited : AcquireResult → Bool
  | .rateLimitExceeded _ => true
  | _ => false

/-- One `acquire()` call at clock `now`.  On rejection the effect fails
before `Ref.getAndSet` runs, so `lastRequest` is untouched and the
timestamp list is the one `Ref.modify` left unchanged.  On admission,
`lastRequestRef` is swapped to `now` and the fiber sleeps the remaining
minimum delay if the previous request was too recent. -/
def acquire (cfg : RateLimiterConfig) (now : Int) (s : LimiterState) :
    AcquireResult × LimiterState :=
  let r := acquireModify cfg.maxRequests cfg.windowMs now s.requests
  if r.1.allowed then
    let timeSince := now - s.lastRequest
    let slept :=
      if timeSince < cfg.minDelay ∧ 0 < s.lastRequest then cfg.minDelay - timeSince else 0
    (.success slept, { requests := r.2, lastRequest := now })
  else
    (.rateLimitExceeded r.1.waitTime, { requests := r.2, lastRequest := s.lastRequest })

/-- The `requests` component of `getStats()` at clock `now`: how many
recorded timestamps lie inside the trailing window. -/
def getStatsCount (cfg : RateLimiterConfig) (now : Int) (s : LimiterState) : Nat :=
  (s.requests.filter (fun r => decide (now - cfg.windowMs < r))).length

/-- A sequence of `acquire()` calls at the given clock values (one
interleaving of concurrent callers), returning every outcome and the final
state. -/
def runAcquires (cfg : RateLimiterConfig) :
    List Int → LimiterState → List AcquireResult × LimiterState
  | [], s => ([], s)
  | t :: ts, s =>
    let r := acquire cfg t s
    let rest := runAcquires cfg ts r.2
    (r.1 :: rest.1, rest.2)

theorem acquire_requests_le (cfg : RateLimiterConfig) (now : Int) (s : LimiterState)
    (h : s.requests.length ≤ cfg.maxRequests) :
    ((acquire cfg now s).2).requests.length ≤ cfg.maxRequests := by
  unfold acquire acquireModify
  by_cases hc : cfg.maxRequests ≤
      (s.requests.filter (fun r => decide (now - cfg.windowMs < r))).length
  · simp [hc, h]
  · simp only [hc, if_false, if_true]
    simp only [List.length_append, List.length_cons, List.length_nil]
    omega

theorem runAcquires_requests_le (cfg : RateLimiterConfig) (ts : List Int) :
    ∀ s : LimiterState, s.requests.length ≤ cfg.maxRequests →
      ((runAcquires cfg ts s).2).requests.length ≤ cfg.maxRequests := by
  induction ts with
  | nil => intro s h; exact h
  | cons t ts ih => intro s h; exact ih _ (acquire_requests_le cfg t s h)

theorem filter_replicate_true {p : Int → Bool} {a : Int} (m : Nat) (h : p a = true) :
    (List.replicate m a).filter p = List.replicate m a := by
  induction m with
  | zero => rfl
  | succ n ih => simp [List.replicate_succ, List.filter_cons, h, ih]

theorem runAcquires_concurrent (cfg : RateLimiterConfig) (hW : 0 < cfg.windowMs) (now : Int) :
    ∀ (n m : Nat) (last : Int),
      ((runAcquires cfg (List.replicate n now) ⟨List.replicate m now, last⟩).1.countP
          AcquireResult.isSuccess = min n (cfg.maxRequests - m)) ∧
      ((runAcquires cfg (List.replicate n now) ⟨List.replicate m now, last⟩).1.countP
          AcquireResult.isRateLimited = n - (cfg.maxRequests - m)) := by
  intro n
  induction n with
  | zero => intro m last; simp [runAcquires]
  | succ n ih =>
    intro m last
    have hfilter : (List.replicate m now).filter
        (fun r => decide (now - cfg.windowMs < r)) = List.replicate m now :=
      filter_replicate_true m (by simp; omega)
    by_cases hm : cfg.maxRequests ≤ m
    · have hacq : acquire cfg now ⟨List.replicate m now, last⟩ =
          (.rateLimitExceeded ((List.replicate m now).headD 0 + cfg.windowMs - now),
            ⟨List.replicate m now, last⟩) := by
        unfold acquire acquireModify
        simp [hfilter, hm]
      obtain ⟨ihs, ihr⟩ := ih m last
      constructor
      · simp [List.replicate_succ, runAcquires, hacq, List.countP_cons,
          AcquireResult.isSuccess, ihs]
        omega
      · simp [List.replicate_succ, runAcquires, hacq, List.countP_cons,
          AcquireResult.isRateLimited, ihr]
        omega
    · have hacq : (acquire cfg now ⟨List.replicate m now, last⟩).1.isSuccess = true ∧
          (acquire cfg now ⟨List.replicate m now, last⟩).1.isRateLimited = false ∧
          (acquire cfg now ⟨List.replicate m now, last⟩).2 =
            ⟨List.replicate (m + 1) now, now⟩ := by
        unfold acquire acquireModify
        simp [hfilter, hm, AcquireResult.isSuccess, AcquireResult.isRateLimited,
          List.replicate_succ']
      obtain ⟨ihs, ihr⟩ := ih (m + 1) now
      simp only [List.replicate_succ] at ihs ihr
      constructor
      · simp [List.replicate_succ, runAcquires, List.countP_cons, hacq.1, hacq.2.2, ihs]
        omega
      · simp [List.replicate_succ, runAcquires, List.countP_cons, hacq.2.1, hacq.2.2, ihr]
        omega

/-- C1: for every limiter configuration, starting from the reset state and
for every sequence of `acquire()` calls (each call being the single atomic
`Ref.modify` transition of the source), (i) the stored timestamp list never
holds more than `maxRequests` entries, (ii) hence the number of recorded
timestamps inside any trailing window — as reported by `getStats()` at any
clock — never exceeds `maxRequests`, and (iii) N concurrent `acquire()`
calls against a fresh limiter with limit K = `maxRequests` (all observing
the same clock, in any interleaving) yield exactly K successes and N − K
RateLimitExceeded failures. -/
theorem rate_limiter_admission (cfg : RateLimiterConfig) :
    (∀ ts : List Int, ((runAcquires cfg ts resetState).2).requests.length ≤ cfg.maxRequests) ∧
    (∀ (ts : List Int) (t : Int),
        getStatsCount cfg t (runAcquires cfg ts resetState).2 ≤ cfg.maxRequests) ∧
    (∀ (N : Nat) (now : Int), 0 < cfg.windowMs → cfg.maxRequests ≤ N →
        ((runAcquires cfg (List.replicate N now) resetState).1.countP
            AcquireResult.isSuccess = cfg.maxRequests) ∧
        ((runAcquires cfg (List.replicate N now) resetState).1.countP
            AcquireResult.isRateLimited = N - cfg.maxRequests)) := by
  refine ⟨?_, ?_, ?_⟩
  · intro ts
    exact runAcquires_requests_le cfg ts resetState (by simp [resetState])
  · intro ts t
    have h := runAcquires_requests_le cfg ts resetState (by simp [resetState])
    calc getStatsCount cfg t (runAcquires cfg ts resetState).2
        ≤ ((runAcquires cfg ts resetState).2).requests.length :=
          List.length_filter_le _ _
      _ ≤ cfg.maxRequests := h
  · intro N now hW hKN
    have h := runAcquires_concurrent cfg hW now N 0 0
    have hreset : (resetState : LimiterState) = ⟨List.replicate 0 now, 0⟩ := rfl
    rw [hreset]
    refine ⟨?_, ?_⟩
    · rw [h.1]; omega
    · rw [h.2]; omega

/-- Witness for C1: limit 2, window 60 s, 5 concurrent calls at clock 100
from a fresh limiter: exactly 2 successes and 3 RateLimitExceeded. -/
theorem rate_limiter_admission_witness :
    ((runAcquires ⟨2, 60000, 0⟩ (List.replicate 5 100) resetState).1.countP
        AcquireResult.isSuccess = 2) ∧
    ((runAcquires ⟨2, 60000, 0⟩ (List.replicate 5 100) resetState).1.countP
        AcquireResult.isRateLimited = 3) := by
  have h := (rate_limiter_admission ⟨2, 60000, 0⟩).2.2 5 100 (by decide) (by decide)
  exact ⟨h.1, h.2⟩

/-- C9: a rejected `acquire()` leaves the limiter state completely
unchanged — no timestamp is recorded, `lastRequest` keeps its old value
(the failure short-circuits before `Ref.getAndSet`), and `getStats()`
reports the same count at every clock as before the call. -/
theorem rejected_acquire_frame (cfg : RateLimiterConfig) (now : Int) (s : LimiterState)
    (w : Int) (h : (acquire cfg now s).1 = .rateLimitExceeded w) :
    (acquire cfg now s).2 = s ∧
    ∀ t, getStatsCount cfg t (acquire cfg now s).2 = getStatsCount cfg t s := by
  have hstate : (acquire cfg now s).2 = s := by
    unfold acquire acquireModify at h ⊢
    by_cases hc : cfg.maxRequests ≤
        (s.requests.filter (fun r => decide (now - cfg.windowMs < r))).length
    · simp [hc]
    · simp [hc] at h
  exact ⟨hstate, fun t => by rw [hstate]⟩

/-- Witness for C9: limit 1, window 1000 ms, one timestamp already recorded
at clock 5; the call at clock 6 is rejected (wait hint 999 ms) and the
state is exactly what it was. -/
theorem rejected_acquire_frame_witness :
    (acquire ⟨1, 1000, 0⟩ 6 ⟨[5], 5⟩).1 = .rateLimitExceeded 999 ∧
    (acquire ⟨1, 1000, 0⟩ 6 ⟨[5], 5⟩).2 = ⟨[5], 5⟩ := by
  exact ⟨by decide, (rejected_acquire_frame ⟨1, 1000, 0⟩ 6 ⟨[5], 5⟩ 999 (by decide)).1⟩

end RateLimiter

/-! ## Cache (src/utils/cache.ts)

The JS `Map` backing the cache is modelled as an association list in
insertion order (a JS `Map` iterates its entries in insertion order, and
`Map.set` on an existing key updates the value in place without moving the
entry). -/

namespace Cache

/-- `CacheEntry`: cached value plus insertion timestamp. -/
structure CacheEntry (V : Type) where
  data : V
  timestamp : Int
deriving DecidableEq, Repr

/-- `Map.prototype.set`: update in place if the key exists (keeping its
position), otherwise append a new entry. -/
def mapSet {V : Type} (m : List (String × CacheEntry V)) (k : String) (e : CacheEntry V) :
    List (String × CacheEntry V) :=
  if m.any (fun p => p.1 == k) then
    m.map (fun p => if p.1 == k then (k, e) else p)
  else m ++ [(k, e)]

/-- `Map.prototype.delete`. -/
def mapDelete {V : Type} (m : List (String × CacheEntry V)) (k : String) :
    List (String × CacheEntry V) :=
  m.filter (fun p => !(p.1 == k))

/-- The eviction scan of `set`: walk the entries in iteration order,
starting from `oldestTime = Infinity`, keeping the first key whose
timestamp is strictly below the current minimum. -/
def oldestEntry {V : Type} (m : List (String × CacheEntry V)) : Option (String × Int) :=
  m.foldl (fun acc p =>
    match acc with
    | none => some (p.1, p.2.timestamp)
    | some q => if p.2.timestamp < q.2 then some (p.1, p.2.timestamp) else acc) none

/-- `set(key, value)` from cache.ts (`CacheLive`): if the map holds at
least `maxSize` entries, scan for the oldest entry and delete it — but the
guard `if (oldestKey)` is a JS truthiness test, so both `null` (empty map)
and an empty-string key skip the delete — then insert the new entry with
the current timestamp. -/
def setEntry {V : Type} (maxSize : Nat) (now : Int) (k : String) (v : V)
    (m : List (String × CacheEntry V)) : List (String × CacheEntry V) :=
  let m1 :=
    if maxSize ≤ m.length then
      match oldestEntry m with
      | some q => if q.1 = "" then m else mapDelete m q.1
      | none => m
    else m
  mapSet m1 k ⟨v, now⟩

/-- C5 (failing input): a full cache (`maxSize = 1`) whose single — and
therefore oldest — entry has the key `""` is not evicted by
`set("route", v)`: the `if (oldestKey)` truthiness guard treats the
empty-string key as absent, so no entry is removed (contradicting the
source's own comment "Remove oldest entry if cache is full" and the spec),
and the cache grows to 2 > maxSize entries. -/
theorem cache_eviction_skipped_on_empty_key :
    setEntry (V := Nat) 1 5 "route" 1 [("", ⟨0, 0⟩)] =
      [("", ⟨0, 0⟩), ("route", ⟨1, 5⟩)] ∧
    (setEntry (V := Nat) 1 5 "route" 1 [("", ⟨0, 0⟩)]).length = 2 := by
  exact ⟨rfl, rfl⟩

end Cache

/-! ## Filter/sort pipeline (src/services/parsing.ts)

Prices are display strings; `parsePriceToNumber` yields a JS number or
`Infinity`, modelled as `WithTop Rat` with the `Infinity` sentinel as `⊤`.
JS number arithmetic on the small decimal values involved is exact, so
`Rat` is a faithful carrier. -/

namespace Parsing

/-- `FlightOption` from src/domain/types.ts (optional schema fields become
`Option`). -/
structure FlightOption where
  is_best : Option Bool
  name : String
  departure : String
  arrival : String
  arrival_time_ahead : Option String
  duration : String
  stops : Nat
  delay : Option String
  price : String
  deep_link : Option String
deriving DecidableEq, Repr

/-- Numeric value of a digit run (as `parseInt`/`parseFloat` read it). -/
def digitsToNat (ds : List Char) : Nat :=
  ds.foldl (fun a c => a * 10 + (c.toNat - 48)) 0

/-- The characters kept by `price.replace(/[^0-9.-]/g, "")`. -/
def isPriceChar (c : Char) : Bool :=
  c.isDigit || c == '.' || c == '-'

/-- JS `parseFloat` on a string containing only digits, dots and minus
signs (the post-strip alphabet): an optional leading minus, the longest
digit run, then optionally a dot and another digit run; `none` models NaN
(no digit consumed).  The value `int + frac / 10 ^ |frac|` is written as
the single fraction `(int * 10 ^ |frac| + frac) / 10 ^ |frac|` via
`mkRat`. -/
def parseFloatStripped (cs : List Char) : Option Rat :=
  let core : List Char → Option Rat := fun ds =>
    let intPart := ds.takeWhile Char.isDigit
    let rest := ds.drop intPart.length
    let fracPart :=
      match rest with
      | '.' :: r => r.takeWhile Char.isDigit
      | _ => []
    if intPart.isEmpty && fracPart.isEmpty then none
    else some (mkRat (digitsToNat intPart * 10 ^ fracPart.length + digitsToNat fracPart)
      (10 ^ fracPart.length))
  match cs with
  | '-' :: r => (core r).map (fun q => -q)
  | _ => core cs

/-- `parsePriceToNumber` from parsing.ts: strip every character outside
`[0-9.-]`, `parseFloat` the remainder, and fall back to `Infinity` (here
`⊤`) unless the result is finite and the stripped string non-empty. -/
def parsePriceToNumber (price : String) : WithTop Rat :=
  let stripped := price.data.filter isPriceChar
  match parseFloatStripped stripped with
  | some q => if 0 < stripped.length then (q : WithTop Rat) else ⊤
  | none => ⊤

/-- The whitespace class `\s` of JS regexes, restricted to ASCII-range
characters (duration strings contain plain spaces). -/
def isJsSpace (c : Char) : Bool :=
  c == ' ' || c == '\t' || c == '\n' || c == '\r' || c == '\x0b' || c == '\x0c'

/-- Leftmost match of the regex `(\d+)\s*unit` (the `/(\d+)\s*hr/` and
`/(\d+)\s*min/` of `parseDurationToMinutes`), returning the captured
number: at each start position the maximal digit run is taken (a shorter
run cannot match because the unit starts with a letter, and start positions
inside a failed run fail for the same reason), then any whitespace, then
the unit literal. -/
def findNumUnit (unit : List Char) : List Char → Option Nat
  | [] => none
  | c :: rest =>
    if c.isDigit then
      let ds := (c :: rest).takeWhile Char.isDigit
      let after := (c :: rest).drop ds.length
      let tail := after.dropWhile isJsSpace
      if unit.isPrefixOf tail then some (digitsToNat ds)
      else findNumUnit unit rest
    else findNumUnit unit rest

/-- `parseDurationToMinutes` from parsing.ts: hours and minutes are read
from the first `(\d+)\s*hr` and `(\d+)\s*min` matches, each defaulting
to 0. -/
def parseDurationToMinutes (duration : String) : Nat :=
  (findNumUnit ['h', 'r'] duration.data).getD 0 * 60 +
    (findNumUnit ['m', 'i', 'n'] duration.data).getD 0

/-- `String.prototype.includes` on char lists. -/
def containsSub (hay needle : List Char) : Bool :=
  match hay with
  | [] => needle.isEmpty
  | _ :: rest => needle.isPrefixOf hay || containsSub rest needle

/-- `toLowerCase`, character by character (the airline names involved are
ASCII). -/
def lowerStr (s : String) : List Char :=
  s.data.map Char.toLower

/-- `SortOption` from src/domain/types.ts («none» is `noSort` here). -/
inductive SortOption
  | priceAsc
  | priceDesc
  | durationAsc
  | durationDesc
  | airline
  | noSort
deriving DecidableEq, Repr

/-- `limit` field values: a number or the "all" sentinel. -/
inductive LimitSetting
  | count (n : Nat)
  | allResults
deriving DecidableEq, Repr

/-- `FlightFilters` from src/domain/types.ts. -/
structure FlightFilters where
  maxPrice : Option Rat := none
  minPrice : Option Rat := none
  maxDurationMinutes : Option Rat := none
  airlines : Option (List String) := none
  nonstopOnly : Option Bool := none
  max_stops : Option Rat := none
  limit : Option LimitSetting := none
deriving DecidableEq, Repr

/-- `if (filters.maxPrice !== undefined && price > filters.maxPrice)
return false`. -/
def maxPriceOK (fs : FlightFilters) (f : FlightOption) : Bool :=
  match fs.maxPrice with
  | none => true
  | some mp => decide (¬ (mp : WithTop Rat) < parsePriceToNumber f.price)

/-- `if (filters.minPrice !== undefined && price < filters.minPrice)
return false`. -/
def minPriceOK (fs : FlightFilters) (f : FlightOption) : Bool :=
  match fs.minPrice with
  | none => true
  | some mp => decide (¬ parsePriceToNumber f.price < (mp : WithTop Rat))

/-- `if (filters.maxDurationMinutes !== undefined && durationMinutes >
filters.maxDurationMinutes) return false`. -/
def maxDurationOK (fs : FlightFilters) (f : FlightOption) : Bool :=
  match fs.maxDurationMinutes with
  | none => true
  | some md => decide (¬ md < (parseDurationToMinutes f.duration : Rat))

/-- The airline allow-list check: with a non-empty list configured, some
entry must be a case-insensitive substring of the flight's airline name. -/
def airlinesOK (fs : FlightFilters) (f : FlightOption) : Bool :=
  match fs.airlines with
  | none => true
  | some al =>
    if 0 < al.length then al.any (fun a => containsSub (lowerStr f.name) (lowerStr a))
    else true

/-- `if (filters.nonstopOnly && flight.stops !== 0) return false`. -/
def nonstopOK (fs : FlightFilters) (f : FlightOption) : Bool :=
  !(fs.nonstopOnly.getD false) || f.stops == 0

/-- `if (filters.max_stops !== undefined && flight.stops >
filters.max_stops) return false`. -/
def maxStopsOK (fs : FlightFilters) (f : FlightOption) : Bool :=
  match fs.max_stops with
  | none => true
  | some ms => decide (¬ ms < (f.stops : Rat))

/-- The predicate of `filterFlights`: the source body is a chain of early
`return false` checks, i.e. the conjunction of the six criteria. -/
def passesFilters (fs : FlightFilters) (f : FlightOption) : Bool :=
  maxPriceOK fs f && minPriceOK fs f && maxDurationOK fs f && airlinesOK fs f &&
    nonstopOK fs f && maxStopsOK fs f

/-- `filterFlights` from parsing.ts. -/
def filterFlights (flights : List FlightOption) (fs : FlightFilters) : List FlightOption :=
  flights.filter (passesFilters fs)

/-- The `price-asc` comparator `pA - pB` as the total preorder it induces
(`a` may stay before `b` iff the comparator is ≤ 0; the `NaN` of
`Infinity - Infinity` counts as 0 per the SortCompare spec). -/
def priceAscLe (a b : FlightOption) : Prop :=
  parsePriceToNumber a.price ≤ parsePriceToNumber b.price

/-- The `price-desc` comparator with its explicit `Infinity`-last
handling: unparseable-b sorts a before b, unparseable-a sorts a after b,
otherwise descending by value. -/
def priceDescLe (a b : FlightOption) : Prop :=
  parsePriceToNumber b.price = ⊤ ∨
    (parsePriceToNumber a.price ≠ ⊤ ∧
      parsePriceToNumber b.price ≤ parsePriceToNumber a.price)

/-- The `duration-asc` comparator `dA - dB` as a total preorder. -/
def durationAscLe (a b : FlightOption) : Prop :=
  parseDurationToMinutes a.duration ≤ parseDurationToMinutes b.duration

/-- The `duration-desc` comparator `dB - dA` as a total preorder. -/
def durationDescLe (a b : FlightOption) : Prop :=
  parseDurationToMinutes b.duration ≤ parseDurationToMinutes a.duration

/-- The `airline` comparator; `localeCompare` is modelled as code-point
order (the names involved are ASCII). -/
def airlineLe (a b : FlightOption) : Prop :=
  a.name ≤ b.name

instance : DecidableRel priceAscLe := fun a b =>
  inferInstanceAs (Decidable (_ ≤ _))

instance : DecidableRel priceDescLe := fun a b =>
  inferInstanceAs (Decidable (_ ∨ _))

instance : DecidableRel durationAscLe := fun a b =>
  inferInstanceAs (Decidable (_ ≤ _))

instance : DecidableRel durationDescLe := fun a b =>
  inferInstanceAs (Decidable (_ ≤ _))

instance : DecidableRel airlineLe := fun a b =>
  inferInstanceAs (Decidable (_ ≤ _))

/-- `sortFlights` from parsing.ts.  JS `Array.prototype.sort` is stable,
and each comparator above induces a total preorder, so the sorted result is
the unique stable sorted permutation — which `List.insertionSort` with the
induced ≤-relation computes. -/
def sortFlights (flights : List FlightOption) (so : SortOption) : List FlightOption :=
  match so with
  | .noSort => flights
  | .priceAsc => List.insertionSort priceAscLe flights
  | .priceDesc => List.insertionSort priceDescLe flights
  | .durationAsc => List.insertionSort durationAscLe flights
  | .durationDesc => List.insertionSort durationDescLe flights
  | .airline => List.insertionSort airlineLe flights

/-- `applyFiltersAndSort` from parsing.ts: filter, then sort, then apply a
numeric limit (the "all" sentinel and an absent limit keep everything). -/
def applyFiltersAndSort (flights : List FlightOption) (fs : FlightFilters)
    (so : SortOption) : List FlightOption :=
  let sorted := sortFlights (filterFlights flights fs) so
  match fs.limit with
  | some (.count n) => sorted.take n
  | _ => sorted

/-- A flight record as the extractor produces it; only name, duration,
stops and price matter to the filter/sort pipeline. -/
def mkFlight (nm dur pr : String) : FlightOption :=
  { is_best := none, name := nm, departure := "10:00 AM", arrival := "1:00 PM",
    arrival_time_ahead := none, duration := dur, stops := 0, delay := none,
    price := pr, deep_link := none }

/-- Test flight priced $200. -/
def flight200 : FlightOption := mkFlight "Delta" "2 hr 30 min" "$200"

/-- Test flight priced $350. -/
def flight350 : FlightOption := mkFlight "United" "3 hr 5 min" "$350"

/-- Test flight with the extractor's unparseable-price sentinel. -/
def flightNA : FlightOption := mkFlight "American" "4 hr" "N/A"

/-- Test flight priced $500. -/
def flight500 : FlightOption := mkFlight "JetBlue" "5 hr 45 min" "$500"

/-- Test flight whose price string is unparseable (lower-case variant). -/
def flightNA2 : FlightOption := mkFlight "Breeze" "1 hr" "n/a"

/-- Test flight whose duration is the extractor's "N/A" fallback. -/
def flightNoDur : FlightOption := mkFlight "Spirit" "N/A" "$90"

/-- Test flight whose duration has neither an `hr` nor a `min` component. -/
def flightNoDur2 : FlightOption := mkFlight "Frontier" "soon" "$80"

instance : IsTotal FlightOption priceAscLe :=
  ⟨fun _ _ => le_total _ _⟩

instance : IsTrans FlightOption priceAscLe :=
  ⟨fun _ _ _ => le_trans⟩

instance : IsTotal FlightOption priceDescLe := by
  refine ⟨fun a b => ?_⟩
  unfold priceDescLe
  rcases eq_or_ne (parsePriceToNumber b.price) ⊤ with hb | hb
  · exact Or.inl (Or.inl hb)
  · rcases eq_or_ne (parsePriceToNumber a.price) ⊤ with ha | ha
    · exact Or.inr (Or.inl ha)
    · rcases le_total (parsePriceToNumber b.price) (parsePriceToNumber a.price) with h | h
      · exact Or.inl (Or.inr ⟨ha, h⟩)
      · exact Or.inr (Or.inr ⟨hb, h⟩)

instance : IsTrans FlightOption priceDescLe := by
  refine ⟨fun a b c hab hbc => ?_⟩
  unfold priceDescLe at *
  rcases hbc with hc | ⟨hb, hcb⟩
  · exact Or.inl hc
  · rcases hab with hb' | ⟨ha, hba⟩
    · exact absurd hb' hb
    · exact Or.inr ⟨ha, le_trans hcb hba⟩

instance : IsTotal FlightOption durationAscLe :=
  ⟨fun _ _ => Nat.le_total _ _⟩

instance : IsTrans FlightOption durationAscLe :=
  ⟨fun _ _ _ => Nat.le_trans⟩

theorem containsSub_of_prefix_of_suffix (unit : List Char) :
    ∀ l t : List Char, t <:+ l → unit.isPrefixOf t = true → containsSub l unit = true := by
  intro l
  induction l with
  | nil =>
    intro t ht hp
    rw [List.suffix_nil.mp ht] at hp
    cases unit with
    | nil => rfl
    | cons u us => simp [List.isPrefixOf] at hp
  | cons c rest ih =>
    intro t ht hp
    rcases List.suffix_cons_iff.mp ht with h | h
    · subst h
      simp [containsSub, hp]
    · simp [containsSub, ih t h hp]

theorem findNumUnit_eq_none (unit : List Char) :
    ∀ l, containsSub l unit = false → findNumUnit unit l = none := by
  intro l
  induction l with
  | nil => intro _; rfl
  | cons c rest ih =>
    intro h
    have hsplit : unit.isPrefixOf (c :: rest) = false ∧ containsSub rest unit = false := by
      simpa [containsSub, Bool.or_eq_false_iff] using h
    rw [findNumUnit]
    by_cases hc : c.isDigit
    · have htail : unit.isPrefixOf
          (((c :: rest).drop ((c :: rest).takeWhile Char.isDigit).length).dropWhile
            isJsSpace) = false := by
        by_contra hcon
        have hpre : unit.isPrefixOf
            (((c :: rest).drop ((c :: rest).takeWhile Char.isDigit).length).dropWhile
              isJsSpace) = true := by
          revert hcon
          cases unit.isPrefixOf
            (((c :: rest).drop ((c :: rest).takeWhile Char.isDigit).length).dropWhile
              isJsSpace) <;> simp
        have hsuf : (((c :: rest).drop ((c :: rest).takeWhile Char.isDigit).length).dropWhile
            isJsSpace) <:+ (c :: rest) :=
          (List.dropWhile_suffix _).trans (List.drop_suffix _ _)
        have := containsSub_of_prefix_of_suffix unit (c :: rest) _ hsuf hpre
        rw [this] at h
        exact Bool.true_eq_false.mp h
      simp [hc] at htail
      simp [hc, htail, ih hsplit.2]
    · simp [hc, ih hsplit.2]

/-- C4: `filterFlights` applies every supplied criterion conjunctively — a
flight survives exactly when it is in the input list and each of the six
criteria passes — and an unparseable price string parses to the `⊤`
sentinel, above every real price and threshold.  Concretely, on flights
priced {200, 350, N/A, 500}, `{maxPrice: 300}` keeps exactly the 200-priced
flight (the N/A flight is excluded) and `{minPrice: 400}` keeps exactly the
N/A and 500-priced flights, in input order. -/
theorem filter_conjunctive_and_na_sentinel :
    (∀ (fs : FlightFilters) (flights : List FlightOption) (f : FlightOption),
        f ∈ filterFlights flights fs ↔
          f ∈ flights ∧ maxPriceOK fs f = true ∧ minPriceOK fs f = true ∧
            maxDurationOK fs f = true ∧ airlinesOK fs f = true ∧
            nonstopOK fs f = true ∧ maxStopsOK fs f = true) ∧
    (parsePriceToNumber "N/A" = ⊤ ∧
      ∀ q : Rat, (q : WithTop Rat) < parsePriceToNumber "N/A") ∧
    (filterFlights [flight200, flight350, flightNA, flight500] { maxPrice := some 300 } =
      [flight200]) ∧
    (filterFlights [flight200, flight350, flightNA, flight500] { minPrice := some 400 } =
      [flightNA, flight500]) := by
  refine ⟨?_, ⟨by decide, fun q => ?_⟩, by decide, by decide⟩
  · intro fs flights f
    simp [filterFlights, List.mem_filter, passesFilters, Bool.and_eq_true, and_assoc]
  · have h : parsePriceToNumber "N/A" = ⊤ := by decide
    rw [h]
    exact WithTop.coe_lt_top q

/-- C8: `sortFlights` places every flight with an unparseable price after
every flight with a parseable one, in both price directions (here: in the
sorted output, everything following an unparseable-price flight is itself
unparseable), and on the flights priced {200, 350, N/A, 500} price-asc
yields [200, 350, 500, N/A] and price-desc yields [500, 350, 200, N/A]. -/
theorem sort_unparseable_last :
    (∀ (flights : List FlightOption) (so : SortOption),
        so = .priceAsc ∨ so = .priceDesc →
        ∀ (i j : Nat) (hi : i < (sortFlights flights so).length)
          (hj : j < (sortFlights flights so).length), i < j →
          parsePriceToNumber ((sortFlights flights so).get ⟨i, hi⟩).price = ⊤ →
          parsePriceToNumber ((sortFlights flights so).get ⟨j, hj⟩).price = ⊤) ∧
    (sortFlights [flight200, flight350, flightNA, flight500] .priceAsc =
      [flight200, flight350, flight500, flightNA]) ∧
    (sortFlights [flight200, flight350, flightNA, flight500] .priceDesc =
      [flight500, flight350, flight200, flightNA]) := by
  refine ⟨?_, by decide, by decide⟩
  intro flights so hso i j hi hj hij htop
  rcases hso with h | h <;> subst h
  · have hs : (sortFlights flights .priceAsc).Sorted priceAscLe :=
      List.sorted_insertionSort priceAscLe flights
    have hrel := List.pairwise_iff_get.mp hs ⟨i, hi⟩ ⟨j, hj⟩ hij
    exact top_le_iff.mp (htop ▸ hrel)
  · have hs : (sortFlights flights .priceDesc).Sorted priceDescLe :=
      List.sorted_insertionSort priceDescLe flights
    have hrel := List.pairwise_iff_get.mp hs ⟨i, hi⟩ ⟨j, hj⟩ hij
    rcases hrel with hc | ⟨ha, _⟩
    · exact hc
    · exact absurd htop ha

/-- Witness for C8: in a list of two unparseable-price flights sorted
price-asc, the flight after an unparseable one is unparseable. -/
theorem sort_unparseable_last_witness :
    parsePriceToNumber ((sortFlights [flightNA, flightNA2] .priceAsc).get
      ⟨1, by decide⟩).price = ⊤ :=
  sort_unparseable_last.1 [flightNA, flightNA2] .priceAsc (Or.inl rfl) 0 1
    (by decide) (by decide) (by decide) (by decide)

/-- C10: `parseDurationToMinutes` maps every string with neither an `hr`
nor a `min` component (in particular the extractor's "N/A" fallback) to 0
minutes; hence the `maxDurationMinutes` filter (with a non-negative
threshold) never excludes a flight with unparseable duration, and in
duration-ascending order every flight before such a flight also parses to 0
minutes — the opposite of the sort-last treatment of unparseable prices. -/
theorem unparseable_duration_behavior :
    (parseDurationToMinutes "N/A" = 0) ∧
    (∀ s : String, containsSub s.data ['h', 'r'] = false →
        containsSub s.data ['m', 'i', 'n'] = false →
        parseDurationToMinutes s = 0) ∧
    (∀ (flights : List FlightOption) (md : Rat) (f : FlightOption), 0 ≤ md →
        f ∈ flights → parseDurationToMinutes f.duration = 0 →
        f ∈ filterFlights flights { maxDurationMinutes := some md }) ∧
    (∀ (flights : List FlightOption) (i j : Nat)
        (hi : i < (sortFlights flights .durationAsc).length)
        (hj : j < (sortFlights flights .durationAsc).length), i < j →
        parseDurationToMinutes ((sortFlights flights .durationAsc).get ⟨j, hj⟩).duration = 0 →
        parseDurationToMinutes ((sortFlights flights .durationAsc).get ⟨i, hi⟩).duration
          = 0) := by
  refine ⟨by decide, ?_, ?_, ?_⟩
  · intro s h1 h2
    unfold parseDurationToMinutes
    rw [findNumUnit_eq_none _ _ h1, findNumUnit_eq_none _ _ h2]
    rfl
  · intro flights md f hmd hf hdur
    rw [filterFlights, List.mem_filter]
    refine ⟨hf, ?_⟩
    simp [passesFilters, maxPriceOK, minPriceOK, maxDurationOK, airlinesOK, nonstopOK,
      maxStopsOK, hdur]
    exact hmd
  · intro flights i j hi hj hij hzero
    have hs : (sortFlights flights .durationAsc).Sorted durationAscLe :=
      List.sorted_insertionSort durationAscLe flights
    have hrel := List.pairwise_iff_get.mp hs ⟨i, hi⟩ ⟨j, hj⟩ hij
    have : parseDurationToMinutes ((sortFlights flights .durationAsc).get
        ⟨i, hi⟩).duration ≤ 0 := hzero ▸ hrel
    omega

/-- Witness for C10: the "N/A" fallback parses to 0 minutes, a flight with
duration "N/A" passes a 600-minute duration filter, and in
duration-ascending order a flight preceding an unparseable-duration flight
parses to 0 minutes. -/
theorem unparseable_duration_behavior_witness :
    parseDurationToMinutes "N/A" = 0 ∧
    flightNoDur ∈ filterFlights [flight200, flightNoDur]
      { maxDurationMinutes := some 600 } ∧
    parseDurationToMinutes ((sortFlights [flightNoDur, flightNoDur2] .durationAsc).get
      ⟨0, by decide⟩).duration = 0 := by
  refine ⟨unparseable_duration_behavior.2.1 "N/A" (by decide) (by decide), ?_, ?_⟩
  · exact unparseable_duration_behavior.2.2.1 [flight200, flightNoDur] 600 flightNoDur
      (by decide) (by decide) (by decide)
  · exact unparseable_duration_behavior.2.2.2 [flightNoDur, flightNoDur2] 0 1
      (by decide) (by decide) (by decide) (by decide)

end Parsing

/-! ## Search-token encoder (src/utils/protobuf.ts)

`encodeFlightSearch` serialises the `Info` protobuf message with protobufjs
and base64url-encodes the bytes.  The wire format is embedded below:
protobufjs generates encoders that write fields sorted by field number
(Info: data 3, passengers 8, seat 9, trip 19; FlightData: date 2,
max_stops 5, airlines 6, from_flight 13, to_flight 14), writes repeated
enums packed (its `packed` option defaults to true), writes nested
messages and strings length-delimited, skips absent optional fields and
empty repeated fields, and varint-encodes tags and integers (7-bit groups,
low group first, continuation bit 0x80). -/

namespace Protobuf

/-- Protobuf varint of a non-negative integer: 7-bit groups, least
significant first, continuation bit on every byte but the last
(`n &&& 0x7f ||| 0x80` is `n % 128 + 128`, `n >>> 7` is `n / 128`). -/
def varint (n : Nat) : List Nat :=
  if n ≤ 127 then [n]
  else (n % 128 + 128) :: varint (n / 128)
termination_by n
decreasing_by exact Nat.div_lt_self (by omega) (by omega)

/-- UTF-8 encoding of one code point. -/
def utf8Char (n : Nat) : List Nat :=
  if n < 128 then [n]
  else if n < 2048 then [192 + n / 64, 128 + n % 64]
  else if n < 65536 then [224 + n / 4096, 128 + n / 64 % 64, 128 + n % 64]
  else [240 + n / 262144, 128 + n / 4096 % 64, 128 + n / 64 % 64, 128 + n % 64]

/-- UTF-8 bytes of a string (protobufjs `writer.string`). -/
def utf8Str (s : String) : List Nat :=
  s.data.flatMap (fun c => utf8Char c.toNat)

/-- A protobuf field tag: `fieldNo <<< 3 ||| wireType`, varint-encoded. -/
def tagBytes (fieldNo wireType : Nat) : List Nat :=
  varint (fieldNo * 8 + wireType)

/-- A length-delimited string field. -/
def strField (fieldNo : Nat) (s : String) : List Nat :=
  tagBytes fieldNo 2 ++ varint (utf8Str s).length ++ utf8Str s

/-- A varint-typed field. -/
def varintField (fieldNo v : Nat) : List Nat :=
  tagBytes fieldNo 0 ++ varint v

/-- A length-delimited nested-message field. -/
def msgField (fieldNo : Nat) (payload : List Nat) : List Nat :=
  tagBytes fieldNo 2 ++ varint payload.length ++ payload

/-- A packed repeated varint field; omitted entirely when empty. -/
def packedField (fieldNo : Nat) (vs : List Nat) : List Nat :=
  if vs.isEmpty then [] else msgField fieldNo (vs.flatMap varint)

/-- `TripType` from src/domain/types.ts. -/
inductive TripType
  | oneWay
  | roundTrip
  | multiCity
deriving DecidableEq, Repr

/-- `SeatClass` from src/domain/types.ts. -/
inductive SeatClass
  | economy
  | premiumEconomy
  | business
  | first
deriving DecidableEq, Repr

/-- `Passengers` from src/domain/types.ts. -/
structure Passengers where
  adults : Nat
  children : Nat
  infants_in_seat : Nat
  infants_on_lap : Nat
deriving DecidableEq, Repr

/-- `FlightData` from protobuf.ts (one search segment; `airlines`
defaults to the empty list as in `fd.airlines || []`). -/
structure FlightData where
  date : String
  from_airport : String
  to_airport : String
  max_stops : Option Nat
  airlines : List String
deriving DecidableEq, Repr

/-- The `seatMap` enum values. -/
def seatEnum : SeatClass → Nat
  | .economy => 1
  | .premiumEconomy => 2
  | .business => 3
  | .first => 4

/-- The `tripMap` enum values. -/
def tripEnum : TripType → Nat
  | .roundTrip => 1
  | .oneWay => 2
  | .multiCity => 3

/-- The passenger enum array: one entry per individual, adults (1) then
children (2) then infants-in-seat (3) then infants-on-lap (4). -/
def passengerArray (p : Passengers) : List Nat :=
  List.replicate p.adults 1 ++ List.replicate p.children 2 ++
    List.replicate p.infants_in_seat 3 ++ List.replicate p.infants_on_lap 4

/-- The nested `Airport` message: field 2 is the airport string. -/
def encodeAirport (code : String) : List Nat :=
  strField 2 code

/-- The `FlightData` message payload, fields in field-number order:
date (2), optional max_stops (5), repeated airlines (6), from_flight (13),
to_flight (14). -/
def encodeFlightData (fd : FlightData) : List Nat :=
  strField 2 fd.date ++
    (match fd.max_stops with
      | none => []
      | some m => varintField 5 m) ++
    fd.airlines.flatMap (strField 6) ++
    msgField 13 (encodeAirport fd.from_airport) ++
    msgField 14 (encodeAirport fd.to_airport)

/-- The `Info` message bytes, fields in field-number order: repeated
data (3), packed passengers (8), seat (9), trip (19). -/
def encodeInfo (data : List FlightData) (trip : TripType) (seat : SeatClass)
    (p : Passengers) : List Nat :=
  data.flatMap (fun fd => msgField 3 (encodeFlightData fd)) ++
    packedField 8 (passengerArray p) ++
    varintField 9 (seatEnum seat) ++
    varintField 19 (tripEnum trip)

/-- The standard base64 alphabet. -/
def stdB64Chars : List Char :=
  "ABCDEFGHIJKLMNOPQRSTUVWXYZabcdefghijklmnopqrstuvwxyz0123456789+/".data

/-- Character for one 6-bit group. -/
def stdB64Char (n : Nat) : Char :=
  stdB64Chars.getD n 'A'

/-- The URL-safe substitution `+`→`-`, `/`→`_` applied after encoding. -/
def toUrlSafe (c : Char) : Char :=
  if c = '+' then '-' else if c = '/' then '_' else c

/-- Base64 6-bit groups of a byte list; the final group patterns are the
padding-stripped encodings of 1 and 2 trailing bytes. -/
def b64Sextets : List Nat → List Nat
  | [] => []
  | [a] => [a / 4, a % 4 * 16]
  | [a, b] => [a / 4, a % 4 * 16 + b / 16, b % 16 * 4]
  | a :: b :: c :: rest =>
    a / 4 :: (a % 4 * 16 + b / 16) :: (b % 16 * 4 + c / 64) :: c % 64 :: b64Sextets rest

/-- Inverse of `b64Sextets` (defined for output shapes of `b64Sextets`). -/
def b64SextetsInv : List Nat → List Nat
  | [x, y] => [x * 4 + y / 16]
  | [x, y, z] => [x * 4 + y / 16, y % 16 * 16 + z / 4]
  | x :: y :: z :: w :: rest =>
    (x * 4 + y / 16) :: (y % 16 * 16 + z / 4) :: (z % 4 * 64 + w) :: b64SextetsInv rest
  | _ => []

/-- `Buffer.toString("base64")` followed by the URL-safe replacements and
padding strip. -/
def base64UrlSafeNoPad (bytes : List Nat) : String :=
  String.mk ((b64Sextets bytes).map (fun s => toUrlSafe (stdB64Char s)))

/-- `encodeFlightSearch` from protobuf.ts (the success value; with valid
inputs the protobufjs serialisation cannot throw). -/
def encodeFlightSearch (data : List FlightData) (trip : TripType) (seat : SeatClass)
    (p : Passengers) : String :=
  base64UrlSafeNoPad (encodeInfo data trip seat p)

/-! ### Wire-format facts: varints are a prefix-free code, all emitted
bytes are bytes, and UTF-8 is injective on ASCII strings. -/

/-- All entries of `l` are below 256 (are bytes). -/
def bytesLT (l : List Nat) : Prop := ∀ b ∈ l, b < 256

theorem bytesLT_append {a b : List Nat} (ha : bytesLT a) (hb : bytesLT b) :
    bytesLT (a ++ b) := by
  intro x hx
  rcases List.mem_append.mp hx with h | h
  exacts [ha x h, hb x h]

theorem varint_bytesLT (n : Nat) : bytesLT (varint n) := by
  induction n using Nat.strong_induction_on with
  | _ n ih =>
    rw [varint]
    by_cases h : n ≤ 127
    · simp only [h, if_true]
      intro b hb
      simp only [List.mem_singleton] at hb
      omega
    · simp only [h, if_false]
      intro b hb
      rcases List.mem_cons.mp hb with h1 | h1
      · omega
      · exact ih (n / 128) (Nat.div_lt_self (by omega) (by omega)) b h1

theorem varint_pf : ∀ (a : Nat) {b : Nat} {x y : List Nat},
    varint a ++ x = varint b ++ y → a = b ∧ x = y := by
  intro a
  induction a using Nat.strong_induction_on with
  | _ a ih =>
    intro b x y h
    have hva : varint a = if a ≤ 127 then [a] else (a % 128 + 128) :: varint (a / 128) := by
      rw [varint]
    have hvb : varint b = if b ≤ 127 then [b] else (b % 128 + 128) :: varint (b / 128) := by
      rw [varint]
    rw [hva, hvb] at h
    by_cases ha : a ≤ 127 <;> by_cases hb : b ≤ 127
    · simp only [ha, hb, if_true, List.cons_append, List.nil_append,
        List.cons.injEq] at h
      exact h
    · simp only [ha, hb, if_true, if_false, List.cons_append, List.nil_append,
        List.cons.injEq] at h
      exfalso
      have := h.1
      omega
    · simp only [ha, hb, if_true, if_false, List.cons_append, List.nil_append,
        List.cons.injEq] at h
      exfalso
      have := h.1
      omega
    · simp only [ha, hb, if_false, List.cons_append, List.cons.injEq] at h
      obtain ⟨h1, h2⟩ := h
      obtain ⟨h3, h4⟩ := ih (a / 128) (Nat.div_lt_self (by omega) (by omega)) h2
      exact ⟨by omega, h4⟩

theorem varint_inj {a b : Nat} (h : varint a = varint b) : a = b := by
  have h' : varint a ++ ([] : List Nat) = varint b ++ [] := by simpa using h
  exact (varint_pf a h').1

theorem flatMap_varint_of_le127 : ∀ l : List Nat, (∀ v ∈ l, v ≤ 127) →
    l.flatMap varint = l := by
  intro l
  induction l with
  | nil => intro _; rfl
  | cons a t ih =>
    intro h
    have ha : a ≤ 127 := h a (by simp)
    have hv : varint a = [a] := by rw [varint]; simp [ha]
    simp only [List.flatMap_cons, hv, List.singleton_append]
    rw [ih (fun v hv => h v (by simp [hv]))]

theorem flatMap_utf8_ascii : ∀ l : List Char, (∀ c ∈ l, c.toNat < 128) →
    l.flatMap (fun c => utf8Char c.toNat) = l.map Char.toNat := by
  intro l
  induction l with
  | nil => intro _; rfl
  | cons a t ih =>
    intro h
    have ha : a.toNat < 128 := h a (by simp)
    have hu : utf8Char a.toNat = [a.toNat] := by simp [utf8Char, ha]
    simp only [List.flatMap_cons, hu, List.map_cons, List.singleton_append]
    rw [ih (fun c hc => h c (by simp [hc]))]

theorem utf8Str_ascii {s : String} (h : ∀ c ∈ s.data, c.toNat < 128) :
    utf8Str s = s.data.map Char.toNat :=
  flatMap_utf8_ascii s.data h

theorem utf8Str_bytesLT {s : String} (h : ∀ c ∈ s.data, c.toNat < 128) :
    bytesLT (utf8Str s) := by
  rw [utf8Str_ascii h]
  intro b hb
  obtain ⟨c, hc, rfl⟩ := List.mem_map.mp hb
  have := h c hc
  omega

theorem map_toNat_inj : ∀ l₁ l₂ : List Char, l₁.map Char.toNat = l₂.map Char.toNat →
    l₁ = l₂ := by
  intro l₁
  induction l₁ with
  | nil =>
    intro l₂ h
    cases l₂ with
    | nil => rfl
    | cons b u => simp at h
  | cons a t ih =>
    intro l₂ h
    cases l₂ with
    | nil => simp at h
    | cons b u =>
      simp only [List.map_cons, List.cons.injEq] at h
      have hab : a = b := by
        have h0 := congrArg Char.ofNat h.1
        rwa [Char.ofNat_toNat, Char.ofNat_toNat] at h0
      rw [hab, ih u h.2]

theorem utf8Str_inj {a b : String} (ha : ∀ c ∈ a.data, c.toNat < 128)
    (hb : ∀ c ∈ b.data, c.toNat < 128) (h : utf8Str a = utf8Str b) : a = b := by
  rw [utf8Str_ascii ha, utf8Str_ascii hb] at h
  have hdata := map_toNat_inj _ _ h
  cases a
  cases b
  exact congrArg String.mk hdata

/-! ### Base64url without padding is injective on byte lists. -/

theorem b64Sextets_roundtrip : ∀ l : List Nat, bytesLT l → b64SextetsInv (b64Sextets l) = l := by
  intro l
  induction l using b64Sextets.induct with
  | case1 => intro _; rfl
  | case2 a =>
    intro hlt
    have ha : a < 256 := hlt a (by simp)
    simp only [b64Sextets, b64SextetsInv, List.cons.injEq, and_true]
    omega
  | case3 a b =>
    intro hlt
    have ha : a < 256 := hlt a (by simp)
    have hb : b < 256 := hlt b (by simp)
    simp only [b64Sextets, b64SextetsInv, List.cons.injEq, and_true]
    refine ⟨by omega, by omega⟩
  | case4 a b c rest ih =>
    intro hlt
    have ha : a < 256 := hlt a (by simp)
    have hb : b < 256 := hlt b (by simp)
    have hc : c < 256 := hlt c (by simp)
    have hrest : bytesLT rest := fun x hx => hlt x (by simp [hx])
    simp only [b64Sextets, b64SextetsInv, List.cons.injEq]
    exact ⟨by omega, by omega, by omega, ih hrest⟩

theorem b64Sextets_lt : ∀ l : List Nat, bytesLT l → ∀ s ∈ b64Sextets l, s < 64 := by
  intro l
  induction l using b64Sextets.induct with
  | case1 =>
    intro _ s hs
    simp [b64Sextets] at hs
  | case2 a =>
    intro hlt s hs
    have ha : a < 256 := hlt a (by simp)
    simp only [b64Sextets, List.mem_cons, List.not_mem_nil, or_false] at hs
    rcases hs with h | h <;> omega
  | case3 a b =>
    intro hlt s hs
    have ha : a < 256 := hlt a (by simp)
    have hb : b < 256 := hlt b (by simp)
    simp only [b64Sextets, List.mem_cons, List.not_mem_nil, or_false] at hs
    rcases hs with h | h | h <;> omega
  | case4 a b c rest ih =>
    intro hlt s hs
    have ha : a < 256 := hlt a (by simp)
    have hb : b < 256 := hlt b (by simp)
    have hc : c < 256 := hlt c (by simp)
    have hrest : bytesLT rest := fun x hx => hlt x (by simp [hx])
    simp only [b64Sextets, List.mem_cons] at hs
    rcases hs with h | h | h | h | h
    · omega
    · omega
    · omega
    · omega
    · exact ih hrest s h

theorem urlB64Char_inj : ∀ x, x < 64 → ∀ y, y < 64 →
    toUrlSafe (stdB64Char x) = toUrlSafe (stdB64Char y) → x = y := by decide

theorem map_urlChar_inj : ∀ u v : List Nat, (∀ s ∈ u, s < 64) → (∀ s ∈ v, s < 64) →
    u.map (fun s => toUrlSafe (stdB64Char s)) = v.map (fun s => toUrlSafe (stdB64Char s)) →
    u = v := by
  intro u
  induction u with
  | nil =>
    intro v _ _ h
    cases v with
    | nil => rfl
    | cons b t => simp at h
  | cons a u ih =>
    intro v hu hv h
    cases v with
    | nil => simp at h
    | cons b t =>
      simp only [List.map_cons, List.cons.injEq] at h
      have hab : a = b :=
        urlB64Char_inj a (hu a (by simp)) b (hv b (by simp)) h.1
      rw [hab, ih t (fun s hs => hu s (by simp [hs])) (fun s hs => hv s (by simp [hs])) h.2]

theorem base64_injective {l₁ l₂ : List Nat} (h₁ : bytesLT l₁) (h₂ : bytesLT l₂)
    (h : base64UrlSafeNoPad l₁ = base64UrlSafeNoPad l₂) : l₁ = l₂ := by
  have hchars : (b64Sextets l₁).map (fun s => toUrlSafe (stdB64Char s)) =
      (b64Sextets l₂).map (fun s => toUrlSafe (stdB64Char s)) :=
    congrArg String.data h
  have hsex : b64Sextets l₁ = b64Sextets l₂ :=
    map_urlChar_inj _ _ (b64Sextets_lt _ h₁) (b64Sextets_lt _ h₂) hchars
  calc l₁ = b64SextetsInv (b64Sextets l₁) := (b64Sextets_roundtrip _ h₁).symm
    _ = b64SextetsInv (b64Sextets l₂) := by rw [hsex]
    _ = l₂ := b64Sextets_roundtrip _ h₂

/-! ### Framing: tags and length prefixes let equal byte streams be peeled
field by field. -/

theorem length_prefixed_cancel {x y r s : List Nat}
    (h : varint x.length ++ (x ++ r) = varint y.length ++ (y ++ s)) : x = y ∧ r = s := by
  obtain ⟨hlen, hxy⟩ := varint_pf x.length h
  exact List.append_inj hxy hlen

theorem msgField_cancel {f : Nat} {x y r s : List Nat}
    (h : msgField f x ++ r = msgField f y ++ s) : x = y ∧ r = s := by
  unfold msgField at h
  simp only [List.append_assoc] at h
  exact length_prefixed_cancel (List.append_cancel_left h)

theorem strField_cancel {f : Nat} {a b : String} {r s : List Nat}
    (ha : ∀ c ∈ a.data, c.toNat < 128) (hb : ∀ c ∈ b.data, c.toNat < 128)
    (h : strField f a ++ r = strField f b ++ s) : a = b ∧ r = s := by
  unfold strField at h
  simp only [List.append_assoc] at h
  obtain ⟨hu, hr⟩ := length_prefixed_cancel (List.append_cancel_left h)
  exact ⟨utf8Str_inj ha hb hu, hr⟩

/-! ### Validity and byte bounds. -/

/-- All characters of the string are ASCII; airport codes (3 letters),
dates (`YYYY-MM-DD`) and carrier codes are. -/
def asciiString (s : String) : Prop := ∀ c ∈ s.data, c.toNat < 128

instance : DecidablePred asciiString := fun s =>
  inferInstanceAs (Decidable (∀ c ∈ s.data, c.toNat < 128))

/-- A valid segment: all its strings are ASCII. -/
def ValidFlightData (fd : FlightData) : Prop :=
  asciiString fd.date ∧ asciiString fd.from_airport ∧ asciiString fd.to_airport ∧
    ∀ a ∈ fd.airlines, asciiString a

instance : DecidablePred ValidFlightData := fun _ =>
  inferInstanceAs (Decidable (_ ∧ _))

/-- A valid search input: every segment valid, and at least one adult. -/
def ValidSearch (data : List FlightData) (p : Passengers) : Prop :=
  (∀ fd ∈ data, ValidFlightData fd) ∧ 1 ≤ p.adults

instance (data : List FlightData) (p : Passengers) : Decidable (ValidSearch data p) :=
  inferInstanceAs (Decidable (_ ∧ _))

theorem bytesLT_nil : bytesLT [] := by
  intro b hb
  cases hb

theorem tagBytes_bytesLT (f w : Nat) : bytesLT (tagBytes f w) :=
  varint_bytesLT _

theorem strField_bytesLT {f : Nat} {s : String} (hs : ∀ c ∈ s.data, c.toNat < 128) :
    bytesLT (strField f s) := by
  intro b hb
  simp only [strField, List.append_assoc, List.mem_append] at hb
  rcases hb with h | h | h
  exacts [tagBytes_bytesLT _ _ b h, varint_bytesLT _ b h, utf8Str_bytesLT hs b h]

theorem varintField_bytesLT (f v : Nat) : bytesLT (varintField f v) := by
  intro b hb
  simp only [varintField, List.mem_append] at hb
  rcases hb with h | h
  exacts [tagBytes_bytesLT _ _ b h, varint_bytesLT _ b h]

theorem msgField_bytesLT {f : Nat} {payload : List Nat} (h : bytesLT payload) :
    bytesLT (msgField f payload) := by
  intro b hb
  simp only [msgField, List.append_assoc, List.mem_append] at hb
  rcases hb with h1 | h1 | h1
  exacts [tagBytes_bytesLT _ _ b h1, varint_bytesLT _ b h1, h b h1]

theorem flatMap_bytesLT {α : Type} {f : α → List Nat} {l : List α}
    (h : ∀ x ∈ l, bytesLT (f x)) : bytesLT (l.flatMap f) := by
  intro b hb
  obtain ⟨x, hx, hbx⟩ := List.mem_flatMap.mp hb
  exact h x hx b hbx

theorem encodeFlightData_bytesLT {fd : FlightData} (h : ValidFlightData fd) :
    bytesLT (encodeFlightData fd) := by
  obtain ⟨h1, h2, h3, h4⟩ := h
  intro b hb
  simp only [encodeFlightData, encodeAirport, List.append_assoc, List.mem_append] at hb
  rcases hb with hm | hm | hm | hm | hm
  · exact strField_bytesLT h1 b hm
  · cases hms : fd.max_stops with
    | none => rw [hms] at hm; cases hm
    | some m => rw [hms] at hm; exact varintField_bytesLT _ _ b hm
  · exact flatMap_bytesLT (fun a ha => strField_bytesLT (h4 a ha)) b hm
  · exact msgField_bytesLT (strField_bytesLT h2) b hm
  · exact msgField_bytesLT (strField_bytesLT h3) b hm

theorem packedField_bytesLT (f : Nat) (vs : List Nat) : bytesLT (packedField f vs) := by
  unfold packedField
  by_cases hv : vs.isEmpty
  · simp only [hv, if_true]
    exact bytesLT_nil
  · simp only [hv, if_false]
    exact msgField_bytesLT (flatMap_bytesLT fun v _ => varint_bytesLT v)

theorem encodeInfo_bytesLT {data : List FlightData} {trip : TripType} {seat : SeatClass}
    {p : Passengers} (h : ∀ fd ∈ data, ValidFlightData fd) :
    bytesLT (encodeInfo data trip seat p) := by
  intro b hb
  simp only [encodeInfo, List.append_assoc, List.mem_append] at hb
  rcases hb with hm | hm | hm | hm
  · exact flatMap_bytesLT
      (fun fd hfd => msgField_bytesLT (encodeFlightData_bytesLT (h fd hfd))) b hm
  · exact packedField_bytesLT _ _ b hm
  · exact varintField_bytesLT _ _ b hm
  · exact varintField_bytesLT _ _ b hm

theorem encodeInfo_eq_of_token_eq {d₁ d₂ : List FlightData} {t₁ t₂ : TripType}
    {s₁ s₂ : SeatClass} {p₁ p₂ : Passengers}
    (h₁ : ∀ fd ∈ d₁, ValidFlightData fd) (h₂ : ∀ fd ∈ d₂, ValidFlightData fd)
    (h : encodeFlightSearch d₁ t₁ s₁ p₁ = encodeFlightSearch d₂ t₂ s₂ p₂) :
    encodeInfo d₁ t₁ s₁ p₁ = encodeInfo d₂ t₂ s₂ p₂ :=
  base64_injective (encodeInfo_bytesLT h₁) (encodeInfo_bytesLT h₂) h

/-! ### Facts about the enum and passenger encodings. -/

theorem seatEnum_inj : ∀ s t : SeatClass, seatEnum s = seatEnum t → s = t := by
  intro s t
  cases s <;> cases t <;> simp [seatEnum]

theorem tripEnum_inj : ∀ s t : TripType, tripEnum s = tripEnum t → s = t := by
  intro s t
  cases s <;> cases t <;> simp [tripEnum]

theorem passengerArray_le127 (p : Passengers) : ∀ v ∈ passengerArray p, v ≤ 127 := by
  intro v hv
  unfold passengerArray at hv
  rcases List.mem_append.mp hv with h | h
  · rcases List.mem_append.mp h with h1 | h1
    · rcases List.mem_append.mp h1 with h2 | h2
      · have := List.eq_of_mem_replicate h2
        omega
      · have := List.eq_of_mem_replicate h2
        omega
    · have := List.eq_of_mem_replicate h1
      omega
  · have := List.eq_of_mem_replicate h
    omega

theorem passengerArray_ne_nil {p : Passengers} (h : 1 ≤ p.adults) :
    passengerArray p ≠ [] := by
  intro hc
  have hlen := congrArg List.length hc
  simp only [passengerArray, List.length_append, List.length_replicate,
    List.length_nil] at hlen
  omega

theorem passengerArray_inj {p q : Passengers} (h : passengerArray p = passengerArray q) :
    p = q := by
  have h1 := congrArg (List.count 1) h
  have h2 := congrArg (List.count 2) h
  have h3 := congrArg (List.count 3) h
  have h4 := congrArg (List.count 4) h
  simp only [passengerArray, List.count_append, List.count_replicate] at h1 h2 h3 h4
  norm_num at h1 h2 h3 h4
  cases p
  cases q
  simp only [Passengers.mk.injEq]
  exact ⟨h1, h2, h3, h4⟩

theorem packedField_of_small {f : Nat} {vs : List Nat} (hne : vs ≠ [])
    (hsmall : ∀ v ∈ vs, v ≤ 127) : packedField f vs = msgField f vs := by
  unfold packedField
  cases vs with
  | nil => exact absurd rfl hne
  | cons a t =>
    simp only [List.isEmpty_cons, if_false, Bool.false_eq_true]
    rw [flatMap_varint_of_le127 _ hsmall]

/-! ### Peeling the `Info` message field by field. -/

theorem info_trip_inj {data : List FlightData} {t t' : TripType} {s : SeatClass}
    {p : Passengers} (h : encodeInfo data t s p = encodeInfo data t' s p) : t = t' := by
  unfold encodeInfo at h
  simp only [List.append_assoc] at h
  have h1 := List.append_cancel_left h
  have h2 := List.append_cancel_left h1
  have h3 := List.append_cancel_left h2
  unfold varintField at h3
  have h4 := List.append_cancel_left h3
  exact tripEnum_inj _ _ (varint_inj h4)

theorem info_seat_inj {data : List FlightData} {t : TripType} {s s' : SeatClass}
    {p : Passengers} (h : encodeInfo data t s p = encodeInfo data t s' p) : s = s' := by
  unfold encodeInfo at h
  simp only [List.append_assoc] at h
  have h1 := List.append_cancel_left h
  have h2 := List.append_cancel_left h1
  unfold varintField at h2
  simp only [List.append_assoc] at h2
  have h3 := List.append_cancel_left h2
  exact seatEnum_inj _ _ (varint_pf _ h3).1

theorem info_passengers_inj {data : List FlightData} {t : TripType} {s : SeatClass}
    {p p' : Passengers} (hp : 1 ≤ p.adults) (hp' : 1 ≤ p'.adults)
    (h : encodeInfo data t s p = encodeInfo data t s p') : p = p' := by
  unfold encodeInfo at h
  simp only [List.append_assoc] at h
  have h1 := List.append_cancel_left h
  rw [packedField_of_small (passengerArray_ne_nil hp) (passengerArray_le127 p),
    packedField_of_small (passengerArray_ne_nil hp') (passengerArray_le127 p')] at h1
  exact passengerArray_inj (msgField_cancel h1).1

theorem flatMap_middle_cancel {α : Type} (f : α → List Nat) :
    ∀ (pre : List α) (x y : α) (suf : List α) (r s : List Nat),
      (pre ++ x :: suf).flatMap (fun a => msgField 3 (f a)) ++ r =
        (pre ++ y :: suf).flatMap (fun a => msgField 3 (f a)) ++ s →
      f x = f y ∧ r = s := by
  intro pre
  induction pre with
  | nil =>
    intro x y suf r s h
    simp only [List.nil_append, List.flatMap_cons, List.append_assoc] at h
    obtain ⟨hxy, htail⟩ := msgField_cancel h
    exact ⟨hxy, List.append_cancel_left htail⟩
  | cons a pre ih =>
    intro x y suf r s h
    simp only [List.cons_append, List.flatMap_cons, List.append_assoc] at h
    exact ih x y suf r s (List.append_cancel_left h)

theorem encodeInfo_set_peel {data : List FlightData} {t : TripType} {s : SeatClass}
    {p : Passengers} {k : Nat} (hk : k < data.length) {fd' : FlightData}
    (h : encodeInfo (data.set k fd') t s p = encodeInfo data t s p) :
    encodeFlightData fd' = encodeFlightData (data.get ⟨k, hk⟩) := by
  have hset : data.set k fd' = data.take k ++ fd' :: data.drop (k + 1) :=
    List.set_eq_take_cons_drop fd' hk
  have hdata : data = data.take k ++ data.get ⟨k, hk⟩ :: data.drop (k + 1) := by
    conv_lhs => rw [← List.take_append_drop k data, List.drop_eq_getElem_cons hk]
    rfl
  set pre := data.take k with hpre
  set suf := data.drop (k + 1) with hsuf
  rw [hset] at h
  rw [hdata] at h
  unfold encodeInfo at h
  simp only [List.append_assoc] at h
  exact (flatMap_middle_cancel encodeFlightData pre fd' (data.get ⟨k, hk⟩) suf _ _ h).1

theorem flightData_date_inj {g : FlightData} {d' : String}
    (hvg : ValidFlightData g) (hd : asciiString d')
    (h : encodeFlightData { g with date := d' } = encodeFlightData g) : d' = g.date := by
  obtain ⟨h1, _, _, _⟩ := hvg
  cases g with
  | mk gd gf gt gm ga =>
    unfold encodeFlightData at h
    simp only [List.append_assoc] at h
    exact (strField_cancel hd h1 h).1

theorem flightData_from_inj {g : FlightData} {a' : String}
    (hvg : ValidFlightData g) (ha : asciiString a')
    (h : encodeFlightData { g with from_airport := a' } = encodeFlightData g) :
    a' = g.from_airport := by
  obtain ⟨h1, h2, _, _⟩ := hvg
  cases g with
  | mk gd gf gt gm ga =>
    unfold encodeFlightData at h
    simp only [List.append_assoc] at h
    have hq := (strField_cancel h1 h1 h).2
    have hq2 := List.append_cancel_left hq
    have hq3 := List.append_cancel_left hq2
    obtain ⟨hair, _⟩ := msgField_cancel hq3
    have h5 : strField 2 a' ++ ([] : List Nat) = strField 2 gf ++ [] := by
      simpa [encodeAirport] using hair
    exact (strField_cancel ha h2 h5).1

theorem flightData_to_inj {g : FlightData} {a' : String}
    (hvg : ValidFlightData g) (ha : asciiString a')
    (h : encodeFlightData { g with to_airport := a' } = encodeFlightData g) :
    a' = g.to_airport := by
  obtain ⟨h1, _, h3, _⟩ := hvg
  cases g with
  | mk gd gf gt gm ga =>
    unfold encodeFlightData at h
    simp only [List.append_assoc] at h
    have hq := (strField_cancel h1 h1 h).2
    have hq2 := List.append_cancel_left hq
    have hq3 := List.append_cancel_left hq2
    have hq4 := List.append_cancel_left hq3
    have h5 : msgField 14 (encodeAirport a') ++ ([] : List Nat) =
        msgField 14 (encodeAirport gt) ++ [] := by simpa using hq4
    obtain ⟨hair, _⟩ := msgField_cancel h5
    have h6 : strField 2 a' ++ ([] : List Nat) = strField 2 gt ++ [] := by
      simpa [encodeAirport] using hair
    exact (strField_cancel ha h3 h6).1

/-- C3: `encodeFlightSearch` is deterministic — it is a pure function, so
identical inputs produce the identical URL-safe token — and
field-sensitive on valid inputs (ASCII airport codes, dates and carrier
codes; at least one adult): changing the trip type, the cabin class, the
passenger composition, or one segment's date, origin airport or
destination airport, while holding everything else fixed, always produces
a different token. -/
theorem encode_deterministic_field_sensitive :
    (∀ (data : List FlightData) (t : TripType) (s : SeatClass) (p : Passengers),
        encodeFlightSearch data t s p = encodeFlightSearch data t s p) ∧
    (∀ (data : List FlightData) (p : Passengers) (t t' : TripType) (s : SeatClass),
        ValidSearch data p → t ≠ t' →
        encodeFlightSearch data t s p ≠ encodeFlightSearch data t' s p) ∧
    (∀ (data : List FlightData) (p : Passengers) (t : TripType) (s s' : SeatClass),
        ValidSearch data p → s ≠ s' →
        encodeFlightSearch data t s p ≠ encodeFlightSearch data t s' p) ∧
    (∀ (data : List FlightData) (p p' : Passengers) (t : TripType) (s : SeatClass),
        ValidSearch data p → ValidSearch data p' → p ≠ p' →
        encodeFlightSearch data t s p ≠ encodeFlightSearch data t s p') ∧
    (∀ (data : List FlightData) (p : Passengers) (t : TripType) (s : SeatClass)
        (k : Nat) (hk : k < data.length) (d' : String), ValidSearch data p →
        asciiString d' → d' ≠ (data.get ⟨k, hk⟩).date →
        encodeFlightSearch (data.set k { data.get ⟨k, hk⟩ with date := d' }) t s p ≠
          encodeFlightSearch data t s p) ∧
    (∀ (data : List FlightData) (p : Passengers) (t : TripType) (s : SeatClass)
        (k : Nat) (hk : k < data.length) (a' : String), ValidSearch data p →
        asciiString a' → a' ≠ (data.get ⟨k, hk⟩).from_airport →
        encodeFlightSearch (data.set k { data.get ⟨k, hk⟩ with from_airport := a' }) t s p ≠
          encodeFlightSearch data t s p) ∧
    (∀ (data : List FlightData) (p : Passengers) (t : TripType) (s : SeatClass)
        (k : Nat) (hk : k < data.length) (a' : String), ValidSearch data p →
        asciiString a' → a' ≠ (data.get ⟨k, hk⟩).to_airport →
        encodeFlightSearch (data.set k { data.get ⟨k, hk⟩ with to_airport := a' }) t s p ≠
          encodeFlightSearch data t s p) := by
  have hvalid_set : ∀ (data : List FlightData) (k : Nat) (fd' : FlightData),
      (∀ fd ∈ data, ValidFlightData fd) → ValidFlightData fd' →
      ∀ fd ∈ data.set k fd', ValidFlightData fd := by
    intro data k fd' hv hv' fd hfd
    rcases List.mem_or_eq_of_mem_set hfd with h | h
    · exact hv fd h
    · exact h ▸ hv'
  refine ⟨fun _ _ _ _ => rfl, ?_, ?_, ?_, ?_, ?_, ?_⟩
  · intro data p t t' s hv hne heq
    exact hne (info_trip_inj (encodeInfo_eq_of_token_eq hv.1 hv.1 heq))
  · intro data p t s s' hv hne heq
    exact hne (info_seat_inj (encodeInfo_eq_of_token_eq hv.1 hv.1 heq))
  · intro data p p' t s hv hv' hne heq
    exact hne (info_passengers_inj hv.2 hv'.2 (encodeInfo_eq_of_token_eq hv.1 hv'.1 heq))
  · intro data p t s k hk d' hv hd hne heq
    have hg : ValidFlightData (data.get ⟨k, hk⟩) := hv.1 _ (List.get_mem data k hk)
    have hg' : ValidFlightData { data.get ⟨k, hk⟩ with date := d' } :=
      ⟨hd, hg.2.1, hg.2.2.1, hg.2.2.2⟩
    have hbytes := encodeInfo_eq_of_token_eq
      (hvalid_set data k _ hv.1 hg') hv.1 heq
    exact hne (flightData_date_inj hg hd (encodeInfo_set_peel hk hbytes))
  · intro data p t s k hk a' hv ha hne heq
    have hg : ValidFlightData (data.get ⟨k, hk⟩) := hv.1 _ (List.get_mem data k hk)
    have hg' : ValidFlightData { data.get ⟨k, hk⟩ with from_airport := a' } :=
      ⟨hg.1, ha, hg.2.2.1, hg.2.2.2⟩
    have hbytes := encodeInfo_eq_of_token_eq
      (hvalid_set data k _ hv.1 hg') hv.1 heq
    exact hne (flightData_from_inj hg ha (encodeInfo_set_peel hk hbytes))
  · intro data p t s k hk a' hv ha hne heq
    have hg : ValidFlightData (data.get ⟨k, hk⟩) := hv.1 _ (List.get_mem data k hk)
    have hg' : ValidFlightData { data.get ⟨k, hk⟩ with to_airport := a' } :=
      ⟨hg.1, hg.2.1, ha, hg.2.2.2⟩
    have hbytes := encodeInfo_eq_of_token_eq
      (hvalid_set data k _ hv.1 hg') hv.1 heq
    exact hne (flightData_to_inj hg ha (encodeInfo_set_peel hk hbytes))

/-- Witness for C3: a one-way JFK→LHR search for one adult yields a
different token after changing only the trip type, and after changing only
the departure date. -/
theorem encode_deterministic_field_sensitive_witness :
    encodeFlightSearch [⟨"2026-01-19", "JFK", "LHR", none, []⟩] .oneWay .economy
        ⟨1, 0, 0, 0⟩ ≠
      encodeFlightSearch [⟨"2026-01-19", "JFK", "LHR", none, []⟩] .roundTrip .economy
        ⟨1, 0, 0, 0⟩ ∧
    encodeFlightSearch [⟨"2026-01-20", "JFK", "LHR", none, []⟩] .oneWay .economy
        ⟨1, 0, 0, 0⟩ ≠
      encodeFlightSearch [⟨"2026-01-19", "JFK", "LHR", none, []⟩] .oneWay .economy
        ⟨1, 0, 0, 0⟩ := by
  constructor
  · exact encode_deterministic_field_sensitive.2.1
      [⟨"2026-01-19", "JFK", "LHR", none, []⟩] ⟨1, 0, 0, 0⟩ .oneWay .roundTrip .economy
      (by decide) (by decide)
  · exact encode_deterministic_field_sensitive.2.2.2.2.1
      [⟨"2026-01-19", "JFK", "LHR", none, []⟩] ⟨1, 0, 0, 0⟩ .oneWay .economy 0
      (by decide) "2026-01-20" (by decide) (by decide) (by decide)

end Protobuf

end FlightsScraper
